import Mathlib

/-!
Verification of the Home-Book-Library import/export/reconciliation pipeline.

This file gives a shallow embedding, in Lean 4, of the server-side core of
the application (the CSV import pipeline with its field normalizer and
duplicate resolver, the delete endpoints, the CSV export, and the full
backup/restore endpoints), and proves or refutes the specified properties
of that core.

The embedding follows `server.js` (import, export, delete) and the second
server variant (bulk update, BOM export, full backup/restore).  JavaScript
objects are modelled as association lists from column names to `JsVal`
values; the PostgreSQL `books` table is a list of records each carrying a
store-assigned numeric `ID` and one cell per table column; machine floats
are modelled as exact rationals (the claims under study concern parsing
and range behaviour, not rounding).
-/

set_option maxRecDepth 4000

namespace HomeBook

/-- Value of one field of a JavaScript object / one SQL cell.
`undef` stands for JavaScript `undefined` (an absent key). -/
inductive JsVal where
  | undef : JsVal
  | null : JsVal
  | str : String → JsVal
  | num : ℚ → JsVal
  | bool : Bool → JsVal
  deriving DecidableEq, Repr

/-- JavaScript truthiness, restricted to the values the pipeline handles. -/
def JsVal.truthy : JsVal → Bool
  | .undef => false
  | .null => false
  | .str s => s ≠ ""
  | .num q => q ≠ 0
  | .bool b => b

/-- A JavaScript object: association list from key to value.  A raw CSV row
(as produced by the header-driven parser) only ever holds strings; the
cleaning steps of the import pipeline replace some of them by numbers or
`null`. -/
abbrev Row := List (String × JsVal)

/-- Raw CSV row: every present cell is a string. -/
abbrev RawRow := List (String × String)

/-- Property access `row[k]`; `undef` when the key is absent. -/
def Row.get (r : Row) (k : String) : JsVal :=
  match r.find? (fun p => p.1 = k) with
  | none => .undef
  | some p => p.2

/-- Property assignment `row[k] = v` (replaces in place, else appends). -/
def Row.set (r : Row) (k : String) (v : JsVal) : Row :=
  if r.any (fun p => p.1 = k) then
    r.map (fun p => if p.1 = k then (k, v) else p)
  else
    r ++ [(k, v)]

/-- Property deletion `delete row[k]`. -/
def Row.del (r : Row) (k : String) : Row :=
  r.filter (fun p => p.1 ≠ k)

/-- Lookup in a raw CSV row. -/
def RawRow.get (r : RawRow) (k : String) : Option String :=
  (r.find? (fun p => p.1 = k)).map (fun p => p.2)

/-- A raw row enters the cleaning phase as an object of strings. -/
def RawRow.toRow (r : RawRow) : Row :=
  r.map (fun p => (p.1, JsVal.str p.2))

/-! ## String primitives

The JavaScript string methods the server uses, embedded over character
lists (the inputs at hand are ASCII). -/

/-- Whitespace skipped by `parseFloat` and removed by `trim`. -/
def jsWs (c : Char) : Bool :=
  c = ' ' || c = '\t' || c = '\n' || c = '\r'

/-- JavaScript `String.prototype.trim`. -/
def jsTrim (s : String) : String :=
  ⟨((s.data.dropWhile jsWs).reverse.dropWhile jsWs).reverse⟩

/-- Character-list core of `String.prototype.startsWith`. -/
def listStartsWith : List Char → List Char → Bool
  | _, [] => true
  | [], _ :: _ => false
  | a :: as, b :: bs => a = b && listStartsWith as bs

/-- JavaScript `s.startsWith(p)`. -/
def jsStartsWith (s p : String) : Bool :=
  listStartsWith s.data p.data

/-- ASCII lowering of one character. -/
def asciiLower (c : Char) : Char :=
  if 65 ≤ c.toNat && c.toNat ≤ 90 then Char.ofNat (c.toNat + 32) else c

/-- JavaScript `String.prototype.toLowerCase` (ASCII fragment). -/
def jsToLower (s : String) : String :=
  ⟨s.data.map asciiLower⟩

/-! ## JavaScript numeric parsing (`parseFloat`) -/

/-- Decimal digit value of a digit character. -/
def digitVal (c : Char) : Nat := c.toNat - 48

/-- Value of a digit string read in base 10. -/
def digitsToNat (l : List Char) : Nat :=
  l.foldl (fun n c => 10 * n + digitVal c) 0

/-- Exponent part of a JavaScript float literal (after the `e`/`E`); an
incomplete exponent contributes a factor of one. -/
def parseExp (l : List Char) : Int :=
  let sign : Int := if l.head? = some '-' then -1 else 1
  let l1 : List Char :=
    if l.head? = some '-' || l.head? = some '+' then l.tail else l
  let ds := l1.takeWhile Char.isDigit
  if ds.isEmpty then 0 else sign * (digitsToNat ds : Int)

/-- Core of `parseFloat` on an already whitespace-trimmed character list:
optional sign, integer digits, optional fraction, optional exponent;
`none` models `NaN`. -/
def parseFloatCore (l : List Char) : Option ℚ :=
  let sign : ℚ := if l.head? = some '-' then -1 else 1
  let l1 : List Char :=
    if l.head? = some '-' || l.head? = some '+' then l.tail else l
  let ip := l1.takeWhile Char.isDigit
  let r1 := l1.dropWhile Char.isDigit
  let fp : List Char :=
    if r1.head? = some '.' then r1.tail.takeWhile Char.isDigit else []
  let r2 : List Char :=
    if r1.head? = some '.' then r1.tail.dropWhile Char.isDigit else r1
  if ip.isEmpty && fp.isEmpty then none
  else
    let mant : ℚ := (digitsToNat ip : ℚ) + (digitsToNat fp : ℚ) / (10 : ℚ) ^ fp.length
    let e : Int :=
      if r2.head? = some 'e' || r2.head? = some 'E' then parseExp r2.tail else 0
    some (sign * mant * (10 : ℚ) ^ e)

/-- JavaScript `parseFloat`: skips leading whitespace, then parses the
longest valid float literal; `none` models `NaN`. -/
def parseFloat (s : String) : Option ℚ :=
  parseFloatCore (s.data.dropWhile jsWs)

/-- JavaScript `s.replace(',', '.')`: only the first comma is replaced. -/
def replaceFirstComma : List Char → List Char
  | [] => []
  | c :: r => if c = ',' then '.' :: r else c :: replaceFirstComma r

/-- String form of the first-comma replacement. -/
def jsReplaceCommaDot (s : String) : String :=
  ⟨replaceFirstComma s.data⟩

/-! ## Field Normalizer (data cleaning of `app.post('/api/books/import')`) -/

/-- The `DD-MM-YYYY` test `/^\d{2}-\d{2}-\d{4}$/.test(s)`. -/
def ddmmyyyy (s : String) : Bool :=
  match s.data with
  | [d1, d2, h1, m1, m2, h2, y1, y2, y3, y4] =>
      d1.isDigit && d2.isDigit && h1 = '-' && m1.isDigit && m2.isDigit &&
      h2 = '-' && y1.isDigit && y2.isDigit && y3.isDigit && y4.isDigit
  | _ => false

/-- JavaScript `String.prototype.split` with a one-character separator. -/
def splitOnChar (c : Char) : List Char → List (List Char)
  | [] => [[]]
  | x :: r =>
    match splitOnChar c r with
    | [] => [[]]
    | g :: gs => if x = c then [] :: g :: gs else (x :: g) :: gs

/-- String form of `split`. -/
def jsSplit (c : Char) (s : String) : List String :=
  (splitOnChar c s.data).map (fun l => ⟨l⟩)

/-- Date rewriting of the import pipeline: split a matching value on `-`
into day, month and year and reassemble as `YYYY-MM-DD`. -/
def rewriteDate (s : String) : String :=
  match jsSplit '-' s with
  | [d, m, y] => y ++ "-" ++ m ++ "-" ++ d
  | _ => s

/-- Shared date test-and-rewrite: the import pipeline keeps a date value
only when it is truthy and matches `DD-MM-YYYY`. -/
def normalizeDateVal (v : JsVal) : Option String :=
  match v with
  | .str s => if s ≠ "" && ddmmyyyy s then some (rewriteDate s) else none
  | _ => none

/-- Cleaning of `Added Date`: rewritten when matching, otherwise the key is
deleted so that the database default applies. -/
def cleanAdded (r : Row) : Row :=
  match normalizeDateVal (r.get "Added Date") with
  | some s => r.set "Added Date" (.str s)
  | none => r.del "Added Date"

/-- Cleaning of a reading-date column: rewritten when matching, otherwise
set to `null`. -/
def cleanReading (r : Row) (k : String) : Row :=
  match normalizeDateVal (r.get k) with
  | some s => r.set k (.str s)
  | none => r.set k .null

/-- Cleaning of a boolean-like column: the Polish affirmative `tak`
(case-insensitively) becomes the string `true`; anything else is kept. -/
def cleanBoolCol (r : Row) (k : String) : Row :=
  match r.get k with
  | .str s => if s ≠ "" && jsToLower s = "tak" then r.set k (.str "true") else r
  | _ => r

/-- Wishlist inference: a `BookShelf` equal (case-insensitively) to the
"to acquire" label forces `is_wishlist` to the string `true`. -/
def cleanWishlist (r : Row) : Row :=
  match r.get "BookShelf" with
  | .str s => if s ≠ "" && jsToLower s = "do kupienia" then r.set "is_wishlist" (.str "true") else r
  | _ => r

/-- Numeric normalization of one cell value: absent, `null` and empty input
become `null`; otherwise the first comma is replaced by a period and the
result parsed with `parseFloat`, an unparsable value degrading to `null`. -/
def normalizeNumericVal (v : Option String) : JsVal :=
  match v with
  | none => .null
  | some s =>
    if s = "" then .null
    else
      match parseFloat (jsReplaceCommaDot s) with
      | some q => .num q
      | none => .null

/-- Cleaning of a numeric column of the row. -/
def cleanNumCol (r : Row) (k : String) : Row :=
  match r.get k with
  | .str s => r.set k (normalizeNumericVal (some s))
  | _ => r.set k .null

/-- The six numeric columns normalized by the import pipeline. -/
def numericFields : List String :=
  ["Pages", "Volume", "Page Read", "Price", "Rating", "Copy Index"]

/-- The whole data-cleaning phase of the import pipeline, applied to one
raw CSV row. -/
def cleanRow (raw : RawRow) : Row :=
  let r0 := raw.toRow
  let r1 := cleanAdded r0
  let r2 := cleanReading r1 "Started Reading Date"
  let r3 := cleanReading r2 "Finished Reading Date"
  let r4 := cleanBoolCol (cleanBoolCol r3 "Read") "Favorite"
  let r5 := cleanWishlist r4
  numericFields.foldl cleanNumCol r5

/-! ## Book Record Store -/

/-- The columns of the `books` table besides the serial primary key `ID`,
in `CREATE TABLE` order. -/
def tableColumns : List String :=
  ["Title", "Author", "Publisher", "Published Date", "Format", "Pages", "Series",
   "Volume", "Language", "ISBN", "Page Read", "Item Url", "Icon Path",
   "Photo Path", "Image Url", "Summary", "Location", "Price", "Genres", "Rating",
   "Added Date", "Copy Index", "Read", "Started Reading Date",
   "Finished Reading Date", "Favorite", "Comments", "Tags", "BookShelf",
   "Settings", "is_wishlist"]

/-- One stored record: the store-assigned `ID` and one cell per column. -/
structure Book where
  id : Nat
  cells : Row
  deriving DecidableEq, Repr

/-- The book record store: the next serial `ID`, the rendering of the
`CURRENT_TIMESTAMP` default of the `Added Date` column, and the records in
insertion order. -/
structure Store where
  nextId : Nat
  defaultAdded : String
  books : List Book
  deriving DecidableEq, Repr

/-- Column default applied when an `INSERT` omits the column. -/
def defaultCell (st : Store) (c : String) : JsVal :=
  if c = "Added Date" then .str st.defaultAdded
  else if c = "Read" || c = "Favorite" || c = "is_wishlist" then .bool false
  else .null

/-- Value stored in column `c` by an `INSERT` whose assigned column/value
pairs are `assigned`: unassigned columns take the store default. -/
def insVal (st : Store) (assigned : Row) (c : String) : JsVal :=
  match assigned.get c with
  | .undef => defaultCell st c
  | v => v

/-- Insertion of a record from the assigned column/value pairs of an
`INSERT` statement: every unassigned column takes its default, and the
record receives the next serial `ID`. -/
def insertRecord (st : Store) (assigned : Row) : Store :=
  { st with nextId := st.nextId + 1,
            books := st.books ++
              [{ id := st.nextId,
                 cells := tableColumns.map (fun c => (c, insVal st assigned c)) }] }

/-- SQL equality of a stored cell with a query parameter: `NULL` compares
equal to nothing. -/
def sqlEq (a b : JsVal) : Bool :=
  a ≠ .null && a ≠ .undef && b ≠ .null && b ≠ .undef && a = b

/-- The query `SELECT "ID" FROM books WHERE "ISBN" = $1` has a row. -/
def existsIsbn (st : Store) (s : String) : Bool :=
  st.books.any (fun b => sqlEq (b.cells.get "ISBN") (.str s))

/-- The query `SELECT "ID" FROM books WHERE "Title" = $1 AND "Author" = $2`
has a row. -/
def existsTitleAuthor (st : Store) (t a : JsVal) : Bool :=
  st.books.any (fun b => sqlEq (b.cells.get "Title") t && sqlEq (b.cells.get "Author") a)

/-! ## Duplicate Resolver -/

/-- Duplicate check of the import pipeline on a cleaned row: a truthy ISBN
with non-empty trim is looked up verbatim (after `trim`) against the stored
`ISBN` column; if that produced no match and both `Title` and `Author` are
truthy, the exact title/author pair is looked up. -/
def rowIsDuplicate (st : Store) (row : Row) : Bool :=
  let isbnDup :=
    match row.get "ISBN" with
    | .str s => s ≠ "" && jsTrim s ≠ "" && existsIsbn st (jsTrim s)
    | _ => false
  isbnDup ||
    ((row.get "Title").truthy && (row.get "Author").truthy &&
      existsTitleAuthor st (row.get "Title") (row.get "Author"))

/-! ## Cover handling -/

/-- Result of `processCoverImage(imageUrl, oldIconPath)`; the network fetch
of `downloadImage` is abstracted by `fetch`, returning the stored path or
`none` on failure. -/
def processCoverImage (fetch : String → Option String) (imageUrl oldIconPath : JsVal) : JsVal :=
  match imageUrl with
  | .str u =>
    if u ≠ "" && (jsStartsWith u "http://" || jsStartsWith u "https://") then
      match fetch u with
      | some p => .str p
      | none => oldIconPath
    else if u ≠ "" && jsStartsWith u "/storage/covers/" then .str u
    else if u = "" then .null
    else oldIconPath
  | _ => oldIconPath

/-! ## Import Pipeline -/

/-- Mutable state of one import call: the transaction's view of the store,
the two counters, the recorded skipped identities, and the number of
`INSERT` statements attempted so far (used to index store faults). -/
structure ImportState where
  st : Store
  newBooksCount : Nat
  skippedBooksCount : Nat
  skippedBooks : List (JsVal × JsVal)
  inserts : Nat
  deriving DecidableEq, Repr

/-- The row after cover materialization: `Icon Path` and `Photo Path` are
set to the processed cover path and the transient `Image Url` deleted. -/
def preparedRow (fetch : String → Option String) (row : Row) : Row :=
  let iconPath := processCoverImage fetch (row.get "Image Url") .null
  ((row.set "Icon Path" iconPath).set "Photo Path" iconPath).del "Image Url"

/-- The columns an import `INSERT` assigns: keys other than `ID` whose
value is neither `null` nor the empty string (`undefined` cannot occur as
a stored cell of the row object). -/
def validCols (row : Row) : Row :=
  row.filter (fun p => p.1 ≠ "ID" && p.2 ≠ .null && p.2 ≠ .str "")

/-- State update of a skipped duplicate row: the skip counter grows and
the row's title/author pair is recorded. -/
def skipState (s : ImportState) (row : Row) : ImportState :=
  { s with skippedBooksCount := s.skippedBooksCount + 1,
           skippedBooks := s.skippedBooks ++ [(row.get "Title", row.get "Author")] }

/-- State update of a successfully inserted row. -/
def insertState (fetch : String → Option String) (s : ImportState) (row : Row) :
    ImportState :=
  { s with st := insertRecord s.st (validCols (preparedRow fetch row)),
           newBooksCount := s.newBooksCount + 1,
           inserts := s.inserts + 1 }

/-- Processing of one CSV row inside the import loop: cleaning, duplicate
resolution, cover materialization, silent rejection of rows without title
or author, and insertion.  `faults k` injects an unexpected store error at
the `k`-th `INSERT` of the batch. -/
def importRow (fetch : String → Option String) (faults : Nat → Bool)
    (s : ImportState) (raw : RawRow) : Except String ImportState :=
  let row := cleanRow raw
  if rowIsDuplicate s.st row then
    .ok (skipState s row)
  else
    let row1 := preparedRow fetch row
    let valid := validCols row1
    if valid.isEmpty || !(row1.get "Title").truthy || !(row1.get "Author").truthy then
      .ok s
    else if faults s.inserts then
      .error "database fault"
    else
      .ok (insertState fetch s row)

/-- The row loop of one import call, inside the transaction. -/
def runImport (fetch : String → Option String) (faults : Nat → Bool)
    (rows : List RawRow) (st : Store) : Except String ImportState :=
  rows.foldlM (importRow fetch faults)
    { st := st, newBooksCount := 0, skippedBooksCount := 0, skippedBooks := [], inserts := 0 }

/-- Outcome reported to the import caller. -/
inductive ImportResponse where
  | summary : Nat → Nat → List (JsVal × JsVal) → ImportResponse
  | failure : String → ImportResponse
  deriving DecidableEq, Repr

/-- The whole import endpoint: the loop runs inside `BEGIN`/`COMMIT`; any
error rolls the transaction back, leaving the store untouched, and is
surfaced as a single failure message; a committed batch with no insert and
no skip is reported as a failure as well. -/
def importEndpoint (fetch : String → Option String) (faults : Nat → Bool)
    (rows : List RawRow) (st : Store) : Store × ImportResponse :=
  match runImport fetch faults rows st with
  | .ok s =>
    if s.newBooksCount = 0 && s.skippedBooksCount = 0 then
      (s.st, .failure "No valid book data was found in the file.")
    else
      (s.st, .summary s.newBooksCount s.skippedBooksCount s.skippedBooks)
  | .error e =>
    (st, .failure ("Failed to import books: " ++ e ++ ". All changes have been rolled back."))

/-- Faultless environment for the pure import runs. -/
def noFaults : Nat → Bool := fun _ => false

/-! ## Manual creation (`app.post('/api/books')`) -/

/-- The manual-entry create endpoint: the cover is materialized, `Icon
Path` and `Photo Path` are set, and every defined field of the body
(except `ID`) is inserted verbatim — no validation and no rating clamp is
applied on the server. -/
def createBook (fetch : String → Option String) (st : Store) (body : Row) : Store :=
  let icon := processCoverImage fetch (body.get "Image Url") .null
  let b1 := (body.set "Icon Path" icon).set "Photo Path" icon
  insertRecord st (b1.filter (fun p => p.1 ≠ "ID" && p.2 ≠ .undef))

/-- Rating clamp of the client form (`handleChange` of `BookFormModal`) and
of the AI-assisted fill: `Math.min(5, Math.max(0, v))`. -/
def clampRating (q : ℚ) : ℚ := min 5 (max 0 q)

/-- The modelled range invariant: every stored `Rating` cell is `NULL` or
lies in `[0, 5]`. -/
def ratingInvariant (st : Store) : Prop :=
  ∀ b ∈ st.books, b.cells.get "Rating" = .null ∨
    ∃ q : ℚ, b.cells.get "Rating" = .num q ∧ 0 ≤ q ∧ q ≤ 5

/-! ## Association-list lemmas -/

theorem Row.get_set_self (r : Row) (k : String) (v : JsVal) :
    (r.set k v).get k = v := by
  unfold Row.set
  split
  · rename_i h
    induction r with
    | nil => simp at h
    | cons p r ih =>
      by_cases hp : p.1 = k
      · simp [Row.get, List.find?, hp]
      · simp only [List.any_cons, Bool.or_eq_true, decide_eq_true_eq] at h
        rcases h with h | h
        · exact absurd h hp
        · simpa [Row.get, List.find?, hp, decide_eq_false hp] using ih h
  · rename_i h
    induction r with
    | nil => simp [Row.get, List.find?]
    | cons p r ih =>
      simp only [List.any_cons, Bool.or_eq_true, decide_eq_true_eq, not_or] at h
      simpa [Row.get, List.find?, decide_eq_false h.1] using ih (by simpa using h.2)

theorem Row.get_set_ne (r : Row) (k k' : String) (v : JsVal) (h : k' ≠ k) :
    (r.set k v).get k' = r.get k' := by
  have hkk : ¬(k = k') := fun hk => h (Eq.symm hk)
  unfold Row.set
  split
  · rename_i hany
    clear hany
    induction r with
    | nil => simp
    | cons p r ih =>
      by_cases hp : p.1 = k
      · have hpk : ¬(p.1 = k') := fun hk => h (Eq.symm (hp ▸ hk))
        simpa [Row.get, List.find?, hp, decide_eq_false hkk, decide_eq_false hpk] using ih
      · by_cases hq : p.1 = k'
        · simp [Row.get, List.find?, hp, hq, h, hkk]
        · simpa [Row.get, List.find?, hp, decide_eq_false hq] using ih
  · rename_i hany
    clear hany
    induction r with
    | nil => simp [Row.get, List.find?, decide_eq_false hkk]
    | cons p r ih =>
      by_cases hq : p.1 = k'
      · simp [Row.get, List.find?, hq]
      · simpa [Row.get, List.find?, decide_eq_false hq] using ih

theorem Row.get_del_self (r : Row) (k : String) :
    (r.del k).get k = .undef := by
  unfold Row.del
  induction r with
  | nil => simp [Row.get, List.find?]
  | cons p r ih =>
    by_cases hp : p.1 = k
    · simpa [List.filter, hp] using ih
    · simpa [List.filter, decide_eq_false hp, Row.get, List.find?] using ih

theorem Row.get_del_ne (r : Row) (k k' : String) (h : k' ≠ k) :
    (r.del k).get k' = r.get k' := by
  unfold Row.del
  induction r with
  | nil => simp
  | cons p r ih =>
    have hk2 : ¬(k = k') := fun hk => h (Eq.symm hk)
    by_cases hp : p.1 = k
    · have hpk : ¬(p.1 = k') := fun hk => h (Eq.symm (hp ▸ hk))
      simpa [List.filter, hp, Row.get, List.find?, decide_eq_false hpk,
        decide_eq_false hk2] using ih
    · by_cases hq : p.1 = k'
      · simp [List.filter, decide_eq_false hp, Row.get, List.find?, hq, h, hk2]
      · simpa [List.filter, decide_eq_false hp, Row.get, List.find?,
          decide_eq_false hq] using ih

theorem RawRow.get_toRow (raw : RawRow) (k : String) :
    raw.toRow.get k =
      match raw.get k with
      | some s => .str s
      | none => .undef := by
  induction raw with
  | nil => simp [RawRow.toRow, RawRow.get, Row.get, List.find?]
  | cons p r ih =>
    by_cases hp : p.1 = k
    · simp [RawRow.toRow, RawRow.get, Row.get, List.find?, hp]
    · simpa [RawRow.toRow, RawRow.get, Row.get, List.find?, decide_eq_false hp] using ih

/-! ## Pass-through of untouched keys through the field normalizer -/

theorem get_cleanAdded_ne (r : Row) (k : String) (h : k ≠ "Added Date") :
    (cleanAdded r).get k = r.get k := by
  unfold cleanAdded
  cases normalizeDateVal (r.get "Added Date") with
  | some s => exact Row.get_set_ne r "Added Date" k (.str s) h
  | none => exact Row.get_del_ne r "Added Date" k h

theorem get_cleanReading_ne (r : Row) (c k : String) (h : k ≠ c) :
    (cleanReading r c).get k = r.get k := by
  unfold cleanReading
  cases normalizeDateVal (r.get c) with
  | some s => exact Row.get_set_ne r c k (.str s) h
  | none => exact Row.get_set_ne r c k .null h

theorem get_cleanBoolCol_ne (r : Row) (c k : String) (h : k ≠ c) :
    (cleanBoolCol r c).get k = r.get k := by
  unfold cleanBoolCol
  split
  · split
    · exact Row.get_set_ne r c k (.str "true") h
    · rfl
  · rfl

theorem get_cleanWishlist_ne (r : Row) (k : String) (h : k ≠ "is_wishlist") :
    (cleanWishlist r).get k = r.get k := by
  unfold cleanWishlist
  split
  · split
    · exact Row.get_set_ne r "is_wishlist" k (.str "true") h
    · rfl
  · rfl

theorem get_cleanNumCol_ne (r : Row) (c k : String) (h : k ≠ c) :
    (cleanNumCol r c).get k = r.get k := by
  unfold cleanNumCol
  cases r.get c with
  | str s => exact Row.get_set_ne r c k (normalizeNumericVal (some s)) h
  | undef => exact Row.get_set_ne r c k .null h
  | null => exact Row.get_set_ne r c k .null h
  | num q => exact Row.get_set_ne r c k .null h
  | bool b => exact Row.get_set_ne r c k .null h

/-- Keys the cleaning phase never writes to are passed through unchanged. -/
theorem get_cleanRow_passthrough (raw : RawRow) (k : String)
    (h1 : k ≠ "Added Date") (h2 : k ≠ "Started Reading Date")
    (h3 : k ≠ "Finished Reading Date") (h4 : k ≠ "Read") (h5 : k ≠ "Favorite")
    (h6 : k ≠ "is_wishlist") (h7 : k ∉ numericFields) :
    (cleanRow raw).get k = raw.toRow.get k := by
  simp only [numericFields, List.mem_cons, List.not_mem_nil, or_false, not_or] at h7
  obtain ⟨n1, n2, n3, n4, n5, n6⟩ := h7
  unfold cleanRow
  simp only [numericFields, List.foldl_cons, List.foldl_nil]
  rw [get_cleanNumCol_ne _ _ _ n6, get_cleanNumCol_ne _ _ _ n5,
      get_cleanNumCol_ne _ _ _ n4, get_cleanNumCol_ne _ _ _ n3,
      get_cleanNumCol_ne _ _ _ n2, get_cleanNumCol_ne _ _ _ n1,
      get_cleanWishlist_ne _ _ h6, get_cleanBoolCol_ne _ _ _ h5,
      get_cleanBoolCol_ne _ _ _ h4, get_cleanReading_ne _ _ _ h3,
      get_cleanReading_ne _ _ _ h2, get_cleanAdded_ne _ _ h1]

/-- Lookup in a row built by tabulating a function over a column list. -/
theorem get_mapCols (f : String → JsVal) (cols : List String) (c : String)
    (hc : c ∈ cols) :
    Row.get (cols.map (fun x => (x, f x))) c = f c := by
  induction cols with
  | nil => simp at hc
  | cons x xs ih =>
    by_cases hx : x = c
    · subst hx
      simp [Row.get, List.find?]
    · rcases List.mem_cons.mp hc with h | h
      · exact absurd h.symm hx
      · simpa [Row.get, List.find?, decide_eq_false hx] using ih h

/-- The cell of a freshly inserted record: assigned columns keep their
value, unassigned table columns take the store default. -/
theorem insertRecord_get (st : Store) (assigned : Row) (c : String)
    (hc : c ∈ tableColumns) :
    ∃ b : Book, (insertRecord st assigned).books =
        st.books ++ [b] ∧ b.id = st.nextId ∧ b.cells.get c = insVal st assigned c := by
  refine ⟨_, rfl, rfl, ?_⟩
  exact get_mapCols (insVal st assigned) tableColumns c hc

/-- Books present in the store stay present after an insertion. -/
theorem insertRecord_mem (st : Store) (assigned : Row) (b : Book)
    (hb : b ∈ st.books) : b ∈ (insertRecord st assigned).books := by
  simp [insertRecord, List.mem_append, hb]

/-! ## Character and list facts used by the normalizer proofs -/

theorem digit_ne (c x : Char) (h : c.isDigit = true) (hx : x.isDigit = false) :
    c ≠ x := by
  intro he
  rw [he, hx] at h
  cases h

theorem digit_not_ws (c : Char) (h : c.isDigit = true) : jsWs c = false := by
  have h1 := digit_ne c ' ' h (by decide)
  have h2 := digit_ne c '\t' h (by decide)
  have h3 := digit_ne c '\n' h (by decide)
  have h4 := digit_ne c '\r' h (by decide)
  simp [jsWs, h1, h2, h3, h4]

theorem takeWhile_append_cons (p : Char → Bool) (l1 : List Char) (c : Char)
    (l2 : List Char) (h1 : ∀ x ∈ l1, p x = true) (hc : p c = false) :
    (l1 ++ c :: l2).takeWhile p = l1 := by
  induction l1 with
  | nil => simp [List.takeWhile_cons, hc]
  | cons a l ih =>
    have ha := h1 a (List.mem_cons_self a l)
    simp only [List.cons_append, List.takeWhile_cons, ha]
    simpa using ih (fun x hx => h1 x (List.mem_cons_of_mem a hx))

theorem dropWhile_append_cons (p : Char → Bool) (l1 : List Char) (c : Char)
    (l2 : List Char) (h1 : ∀ x ∈ l1, p x = true) (hc : p c = false) :
    (l1 ++ c :: l2).dropWhile p = c :: l2 := by
  induction l1 with
  | nil => simp [List.dropWhile_cons, hc]
  | cons a l ih =>
    have ha := h1 a (List.mem_cons_self a l)
    simp only [List.cons_append, List.dropWhile_cons, ha]
    simpa using ih (fun x hx => h1 x (List.mem_cons_of_mem a hx))

theorem replaceFirstComma_append (l1 l2 : List Char) (h : ',' ∉ l1) :
    replaceFirstComma (l1 ++ ',' :: l2) = l1 ++ '.' :: l2 := by
  induction l1 with
  | nil => simp [replaceFirstComma]
  | cons a l ih =>
    have ha : ¬(a = ',') := fun he => h (he ▸ List.mem_cons_self a l)
    simp only [List.cons_append, replaceFirstComma, if_neg ha]
    exact congrArg (fun t => a :: t) (ih (fun hm => h (List.mem_cons_of_mem a hm)))

/-! ## C9: numeric normalization replaces only the first comma -/

/-- C9.  In import numeric normalization only the first comma of the value
is replaced by a period before `parseFloat`; a value made of digits, a
comma, more digits, a second comma and an arbitrary tail therefore parses
to the prefix before the second comma instead of degrading to null. -/
theorem numeric_first_comma_only (a b c : List Char) (ha : a ≠ [])
    (hda : ∀ x ∈ a, x.isDigit = true) (hdb : ∀ x ∈ b, x.isDigit = true) :
    normalizeNumericVal (some ⟨a ++ ',' :: b ++ ',' :: c⟩) =
      .num ((digitsToNat a : ℚ) + (digitsToNat b : ℚ) / (10 : ℚ) ^ b.length) := by
  obtain ⟨d, ds, rfl⟩ : ∃ d ds, a = d :: ds := by
    cases a with
    | nil => exact absurd rfl ha
    | cons d ds => exact ⟨d, ds, rfl⟩
  have hd := hda d (List.mem_cons_self d ds)
  have hne : (⟨d :: ds ++ ',' :: b ++ ',' :: c⟩ : String) ≠ "" := by
    intro he
    have : d :: ds ++ ',' :: b ++ ',' :: c = [] := congrArg String.data he
    simp at this
  rw [normalizeNumericVal, if_neg hne]
  have hmem : ',' ∉ d :: ds := by
    intro hm
    have := hda ',' hm
    cases this
  have hrep : jsReplaceCommaDot ⟨d :: ds ++ ',' :: b ++ ',' :: c⟩ =
      ⟨d :: ds ++ '.' :: b ++ ',' :: c⟩ := by
    refine congrArg String.mk ?_
    simpa using replaceFirstComma_append (d :: ds) (b ++ ',' :: c) hmem
  rw [hrep]
  have hdrop : (⟨d :: ds ++ '.' :: b ++ ',' :: c⟩ : String).data.dropWhile jsWs =
      d :: ds ++ '.' :: b ++ ',' :: c := by
    simp [List.dropWhile_cons, digit_not_ws d hd]
  rw [parseFloat, hdrop]
  have htake : (d :: ds ++ '.' :: b ++ ',' :: c).takeWhile Char.isDigit = d :: ds := by
    simpa using takeWhile_append_cons Char.isDigit (d :: ds) '.' (b ++ ',' :: c) hda (by decide)
  have hdrop2 : (d :: ds ++ '.' :: b ++ ',' :: c).dropWhile Char.isDigit =
      '.' :: (b ++ ',' :: c) := by
    simpa using dropWhile_append_cons Char.isDigit (d :: ds) '.' (b ++ ',' :: c) hda (by decide)
  have htake3 : (b ++ ',' :: c).takeWhile Char.isDigit = b :=
    takeWhile_append_cons Char.isDigit b ',' c hdb (by decide)
  have hdrop3 : (b ++ ',' :: c).dropWhile Char.isDigit = ',' :: c :=
    dropWhile_append_cons Char.isDigit b ',' c hdb (by decide)
  have hd1 : ¬(d = '-') := digit_ne d '-' hd (by decide)
  have hd2 : ¬(d = '+') := digit_ne d '+' hd (by decide)
  have htake2 : List.takeWhile Char.isDigit (d :: (ds ++ '.' :: b ++ ',' :: c)) =
      d :: ds := by simpa using htake
  have hdropb : List.dropWhile Char.isDigit (d :: (ds ++ '.' :: b ++ ',' :: c)) =
      '.' :: (b ++ ',' :: c) := by simpa using hdrop2
  simp only [parseFloatCore, List.cons_append, List.head?_cons, Option.some.injEq,
    decide_eq_false hd1, decide_eq_false hd2, Bool.or_self, Bool.false_or,
    Bool.or_false, Bool.false_eq_true, if_false, List.tail_cons]
  rw [htake2, hdropb]
  simp only [List.head?_cons, Option.some.injEq, if_pos rfl, List.tail_cons,
    htake3, hdrop3, List.isEmpty_cons, Bool.false_and, Bool.false_eq_true,
    if_false, List.head?_cons]
  simp [hd1, hd2]

/-- Witness for C9 at the concrete input of the claim. -/
theorem numeric_first_comma_only_witness :
    ((⟨['1'] ++ ',' :: ['2', '3', '4'] ++ ',' :: ['5']⟩ : String) = "1,234,5") ∧
    normalizeNumericVal (some ⟨['1'] ++ ',' :: ['2', '3', '4'] ++ ',' :: ['5']⟩) =
      .num ((digitsToNat ['1'] : ℚ) +
        (digitsToNat ['2', '3', '4'] : ℚ) / (10 : ℚ) ^ (['2', '3', '4'] : List Char).length) :=
  ⟨rfl, numeric_first_comma_only ['1'] ['2', '3', '4'] ['5']
    (by decide) (by decide) (by decide)⟩

/-! ## C6: date normalization -/

theorem get_cleanReading_self (r : Row) (c : String) :
    (cleanReading r c).get c =
      match normalizeDateVal (r.get c) with
      | some t => .str t
      | none => .null := by
  unfold cleanReading
  cases normalizeDateVal (r.get c) with
  | some t => exact Row.get_set_self _ _ _
  | none => exact Row.get_set_self _ _ _

theorem get_cleanAdded_self (r : Row) :
    (cleanAdded r).get "Added Date" =
      match normalizeDateVal (r.get "Added Date") with
      | some t => .str t
      | none => .undef := by
  unfold cleanAdded
  cases normalizeDateVal (r.get "Added Date") with
  | some t => exact Row.get_set_self _ _ _
  | none => exact Row.get_del_self _ _

theorem cleanRow_get_started (raw : RawRow) :
    (cleanRow raw).get "Started Reading Date" =
      match normalizeDateVal (raw.toRow.get "Started Reading Date") with
      | some t => .str t
      | none => .null := by
  unfold cleanRow
  simp only [numericFields, List.foldl_cons, List.foldl_nil]
  rw [get_cleanNumCol_ne _ _ _ (by decide), get_cleanNumCol_ne _ _ _ (by decide),
      get_cleanNumCol_ne _ _ _ (by decide), get_cleanNumCol_ne _ _ _ (by decide),
      get_cleanNumCol_ne _ _ _ (by decide), get_cleanNumCol_ne _ _ _ (by decide),
      get_cleanWishlist_ne _ _ (by decide), get_cleanBoolCol_ne _ _ _ (by decide),
      get_cleanBoolCol_ne _ _ _ (by decide), get_cleanReading_ne _ _ _ (by decide),
      get_cleanReading_self, get_cleanAdded_ne _ _ (by decide)]

theorem cleanRow_get_finished (raw : RawRow) :
    (cleanRow raw).get "Finished Reading Date" =
      match normalizeDateVal (raw.toRow.get "Finished Reading Date") with
      | some t => .str t
      | none => .null := by
  unfold cleanRow
  simp only [numericFields, List.foldl_cons, List.foldl_nil]
  rw [get_cleanNumCol_ne _ _ _ (by decide), get_cleanNumCol_ne _ _ _ (by decide),
      get_cleanNumCol_ne _ _ _ (by decide), get_cleanNumCol_ne _ _ _ (by decide),
      get_cleanNumCol_ne _ _ _ (by decide), get_cleanNumCol_ne _ _ _ (by decide),
      get_cleanWishlist_ne _ _ (by decide), get_cleanBoolCol_ne _ _ _ (by decide),
      get_cleanBoolCol_ne _ _ _ (by decide), get_cleanReading_self,
      get_cleanReading_ne _ _ _ (by decide), get_cleanAdded_ne _ _ (by decide)]

theorem cleanRow_get_added (raw : RawRow) :
    (cleanRow raw).get "Added Date" =
      match normalizeDateVal (raw.toRow.get "Added Date") with
      | some t => .str t
      | none => .undef := by
  unfold cleanRow
  simp only [numericFields, List.foldl_cons, List.foldl_nil]
  rw [get_cleanNumCol_ne _ _ _ (by decide), get_cleanNumCol_ne _ _ _ (by decide),
      get_cleanNumCol_ne _ _ _ (by decide), get_cleanNumCol_ne _ _ _ (by decide),
      get_cleanNumCol_ne _ _ _ (by decide), get_cleanNumCol_ne _ _ _ (by decide),
      get_cleanWishlist_ne _ _ (by decide), get_cleanBoolCol_ne _ _ _ (by decide),
      get_cleanBoolCol_ne _ _ _ (by decide), get_cleanReading_ne _ _ _ (by decide),
      get_cleanReading_ne _ _ _ (by decide), get_cleanAdded_self]

theorem rewriteDate_shape (d1 d2 m1 m2 y1 y2 y3 y4 : Char)
    (h1 : d1.isDigit = true) (h2 : d2.isDigit = true)
    (h3 : m1.isDigit = true) (h4 : m2.isDigit = true)
    (h5 : y1.isDigit = true) (h6 : y2.isDigit = true)
    (h7 : y3.isDigit = true) (h8 : y4.isDigit = true) :
    rewriteDate ⟨[d1, d2, '-', m1, m2, '-', y1, y2, y3, y4]⟩ =
      ⟨[y1, y2, y3, y4, '-', m1, m2, '-', d1, d2]⟩ := by
  have e1 := digit_ne d1 '-' h1 (by decide)
  have e2 := digit_ne d2 '-' h2 (by decide)
  have e3 := digit_ne m1 '-' h3 (by decide)
  have e4 := digit_ne m2 '-' h4 (by decide)
  have e5 := digit_ne y1 '-' h5 (by decide)
  have e6 := digit_ne y2 '-' h6 (by decide)
  have e7 := digit_ne y3 '-' h7 (by decide)
  have e8 := digit_ne y4 '-' h8 (by decide)
  have hsplit : splitOnChar '-' [d1, d2, '-', m1, m2, '-', y1, y2, y3, y4] =
      [[d1, d2], [m1, m2], [y1, y2, y3, y4]] := by
    simp [splitOnChar, e1, e2, e3, e4, e5, e6, e7, e8]
  unfold rewriteDate jsSplit
  rw [show (⟨[d1, d2, '-', m1, m2, '-', y1, y2, y3, y4]⟩ : String).data =
        [d1, d2, '-', m1, m2, '-', y1, y2, y3, y4] from rfl, hsplit]
  rfl

/-- C6.  A date value matching the `DD-MM-YYYY` pattern is rewritten by
the import normalization into `YYYY-MM-DD` with the same day, month and year
components, for all three date columns; any other value (including an
empty or absent one) yields `null` for the two reading-date columns and
removal of `Added Date`, an unassigned `Added Date` taking the
store-assigned default on insertion. -/
theorem date_normalization (raw : RawRow) (s : String) :
    ((ddmmyyyy s = true →
        ∃ d1 d2 m1 m2 y1 y2 y3 y4 : Char,
          (d1.isDigit = true ∧ d2.isDigit = true ∧ m1.isDigit = true ∧
           m2.isDigit = true ∧ y1.isDigit = true ∧ y2.isDigit = true ∧
           y3.isDigit = true ∧ y4.isDigit = true) ∧
          s = ⟨[d1, d2, '-', m1, m2, '-', y1, y2, y3, y4]⟩ ∧
          normalizeDateVal (.str s) = some ⟨[y1, y2, y3, y4, '-', m1, m2, '-', d1, d2]⟩) ∧
      (ddmmyyyy s = false → normalizeDateVal (.str s) = none)) ∧
    ((raw.get "Started Reading Date" = some s →
        (cleanRow raw).get "Started Reading Date" =
          match normalizeDateVal (.str s) with
          | some t => .str t
          | none => .null) ∧
     (raw.get "Finished Reading Date" = some s →
        (cleanRow raw).get "Finished Reading Date" =
          match normalizeDateVal (.str s) with
          | some t => .str t
          | none => .null) ∧
     (raw.get "Added Date" = some s →
        (cleanRow raw).get "Added Date" =
          match normalizeDateVal (.str s) with
          | some t => .str t
          | none => .undef)) ∧
    (∀ (st : Store) (assigned : Row), assigned.get "Added Date" = .undef →
      insVal st assigned "Added Date" = .str st.defaultAdded) := by
  refine ⟨⟨?_, ?_⟩, ⟨?_, ?_, ?_⟩, ?_⟩
  · intro hdd
    unfold ddmmyyyy at hdd
    split at hdd
    · rename_i l d1 d2 h1c m1 m2 h2c y1 y2 y3 y4 heq
      simp only [Bool.and_eq_true, decide_eq_true_eq] at hdd
      obtain ⟨⟨⟨⟨⟨⟨⟨⟨⟨hd1, hd2⟩, hh1⟩, hm1⟩, hm2⟩, hh2⟩, hy1⟩, hy2⟩, hy3⟩, hy4⟩ := hdd
      subst hh1 hh2
      have hs : s = ⟨[d1, d2, '-', m1, m2, '-', y1, y2, y3, y4]⟩ := by
        cases s with
        | mk l' => exact congrArg String.mk heq
      refine ⟨d1, d2, m1, m2, y1, y2, y3, y4,
        ⟨hd1, hd2, hm1, hm2, hy1, hy2, hy3, hy4⟩, hs, ?_⟩
      have hne : s ≠ "" := by
        rw [hs]
        intro he
        have : ([d1, d2, '-', m1, m2, '-', y1, y2, y3, y4] : List Char) = [] :=
          congrArg String.data he
        simp at this
      have hddm : ddmmyyyy s = true := by
        rw [hs]
        unfold ddmmyyyy
        simp [hd1, hd2, hm1, hm2, hy1, hy2, hy3, hy4]
      rw [normalizeDateVal]
      rw [if_pos (by simp [hne, hddm])]
      rw [hs, rewriteDate_shape d1 d2 m1 m2 y1 y2 y3 y4 hd1 hd2 hm1 hm2 hy1 hy2 hy3 hy4]
    · cases hdd
  · intro hdd
    rw [normalizeDateVal]
    rw [if_neg (by simp [hdd])]
  · intro hget
    rw [cleanRow_get_started, RawRow.get_toRow, hget]
  · intro hget
    rw [cleanRow_get_finished, RawRow.get_toRow, hget]
  · intro hget
    rw [cleanRow_get_added, RawRow.get_toRow, hget]
  · intro st assigned hget
    rw [insVal, hget]
    rfl

/-- Witness for C6 at the concrete date `25-12-2023` and the malformed
date `2023-12-25`. -/
theorem date_normalization_witness :
    ((cleanRow [("Started Reading Date", "25-12-2023")]).get "Started Reading Date" =
        match normalizeDateVal (.str "25-12-2023") with
        | some t => .str t
        | none => .null) ∧
    normalizeDateVal (.str "25-12-2023") = some "2023-12-25" ∧
    ((cleanRow [("Added Date", "2023-12-25")]).get "Added Date" =
        match normalizeDateVal (.str "2023-12-25") with
        | some t => .str t
        | none => .undef) ∧
    normalizeDateVal (.str "2023-12-25") = none := by
  refine ⟨((date_normalization [("Started Reading Date", "25-12-2023")] "25-12-2023").2.1).1
      (by decide), by decide,
    ((date_normalization [("Added Date", "2023-12-25")] "2023-12-25").2.1).2.2
      (by decide), ?_⟩
  exact ((date_normalization [] "2023-12-25").1).2 (by decide)

/-! ## Concrete fixtures -/

/-- Environment in which every cover download fails (no network). -/
def fetchNone : String → Option String := fun _ => none

/-- A fresh, empty book store. -/
def emptyStore : Store := { nextId := 1, defaultAdded := "2024-01-01", books := [] }

/-- An import row carrying an out-of-range rating in locale notation. -/
def ratingRow : RawRow := [("Title", "T"), ("Author", "A"), ("Rating", "9,5")]

/-- The store produced by importing `ratingRow` into the empty store. -/
def stRatingBad : Store :=
  (importEndpoint fetchNone noFaults [ratingRow] emptyStore).1

/-! ## C5: the rating range invariant -/

theorem normalizeNumericVal95 : normalizeNumericVal (some "9,5") = .num ((19 : ℚ) / 2) := by
  simp [normalizeNumericVal, jsReplaceCommaDot, replaceFirstComma, parseFloat,
    parseFloatCore, jsWs, digitsToNat, digitVal, List.takeWhile, List.dropWhile]
  norm_num

theorem stRatingBad_rating_cell :
    (stRatingBad.books.get? 0).map (fun b => b.cells.get "Rating") =
      some (.num ((19 : ℚ) / 2)) := by
  rw [show (stRatingBad.books.get? 0).map (fun b => b.cells.get "Rating") =
        some (normalizeNumericVal (some "9,5")) from rfl, normalizeNumericVal95]

/-- Counterexample to C5: importing a single row with `Rating = "9,5"` into
the empty store succeeds and stores the unclamped value `9.5`, so the
resulting (reachable) store violates the `[0, 5]` range invariant. -/
theorem rating_invariant_counterexample :
    (importEndpoint fetchNone noFaults [ratingRow] emptyStore).2 =
        .summary 1 0 [] ∧
      ¬ ratingInvariant stRatingBad := by
  refine ⟨by decide, ?_⟩
  intro hinv
  have e := stRatingBad_rating_cell
  cases hq : stRatingBad.books.get? 0 with
  | none => rw [hq] at e; cases e
  | some b =>
    rw [hq] at e
    simp only [Option.map_some', Option.some.injEq] at e
    have hmem : b ∈ stRatingBad.books := by
      have := List.get?_eq_some.mp hq
      obtain ⟨hlt, hget⟩ := this
      exact hget ▸ List.get_mem _ _ _
    rcases hinv b hmem with hnull | ⟨q, hq2, _, h5⟩
    · rw [e] at hnull; cases hnull
    · rw [e] at hq2
      have : q = (19 : ℚ) / 2 := by
        injection hq2.symm
      rw [this] at h5
      norm_num at h5

/-- C5 (amended).  The rating clamp `Math.min(5, Math.max(0, v))` applied
on the manual-entry form and on the AI-assisted fill always produces a
value in `[0, 5]`, but the CSV import path applies no clamp: importing a
row with `Rating = "9,5"` stores the raw value `9.5`, which lies outside
the range, so the invariant is not preserved by the import entry path. -/
theorem rating_clamp_paths :
    (∀ q : ℚ, 0 ≤ clampRating q ∧ clampRating q ≤ 5) ∧
    (stRatingBad.books.get? 0).map (fun b => b.cells.get "Rating") =
      some (.num ((19 : ℚ) / 2)) ∧
    ¬ ((19 : ℚ) / 2 ≤ 5) := by
  refine ⟨fun q => ⟨?_, ?_⟩, stRatingBad_rating_cell, by norm_num⟩
  · rw [clampRating]
    rcases le_total 5 (max 0 q) with h | h
    · rw [min_eq_left h]
      norm_num
    · rw [min_eq_right h]
      exact le_max_left 0 q
  · exact min_le_left 5 (max 0 q)

/-! ## C1: the ISBN rule of the Duplicate Resolver -/

/-- ISBN normalization as worded by the spec (hyphens and spaces
stripped).  This definition follows the spec, not the code; it is used
only to state C1 against the code's actual comparison. -/
def specNormalizedISBN (s : String) : String :=
  ⟨s.data.filter (fun c => !(c = '-' || c = ' '))⟩

/-- SQL string-equality of a cell reduces to plain equality. -/
theorem sqlEq_str (x : JsVal) (t : String) : sqlEq x (.str t) = true ↔ x = .str t := by
  cases x <;> simp [sqlEq]

/-- A store holding one record with raw ISBN `12`. -/
def stIsbn : Store :=
  createBook fetchNone emptyStore [("Title", .str "X"), ("Author", .str "Y"), ("ISBN", .str "12")]

/-- A store holding one record with raw ISBN `99`. -/
def stIsbnW : Store :=
  createBook fetchNone emptyStore [("Title", .str "X"), ("Author", .str "Y"), ("ISBN", .str "99")]

/-- Initial loop state of one import call over a given store. -/
def initImportState (st : Store) : ImportState :=
  { st := st, newBooksCount := 0, skippedBooksCount := 0, skippedBooks := [], inserts := 0 }

/-- Counterexample to C1: the row's ISBN `1-2` and the stored ISBN `12`
have the same spec-normalized ISBN, yet the resolver does not classify the
row as a duplicate and the import inserts it. -/
theorem import_isbn_normalized_dup_counterexample :
    specNormalizedISBN "1-2" = specNormalizedISBN "12" ∧
    (∃ b ∈ stIsbn.books, b.cells.get "ISBN" = .str "12") ∧
    rowIsDuplicate stIsbn (cleanRow [("Title", "A"), ("Author", "B"), ("ISBN", "1-2")]) = false ∧
    (importEndpoint fetchNone noFaults
        [[("Title", "A"), ("Author", "B"), ("ISBN", "1-2")]] stIsbn).2 =
      .summary 1 0 [] := by
  refine ⟨by decide, by decide, by decide, by decide⟩

/-- C1 (amended).  The code's ISBN rule: a row whose (truthy) ISBN,
after `trim` only, is verbatim equal to the raw stored `ISBN` string of
some record visible to the import transaction — including records
inserted by earlier rows of the same call, since the check runs against
the current transaction state — is classified a duplicate, and the row is
skipped: the store, the new-books counter and the insert counter are
unchanged while the skip counter and the skipped list grow. -/
theorem import_isbn_exact_match_skips (fetch : String → Option String)
    (faults : Nat → Bool) (s : ImportState) (raw : RawRow) (sv : String)
    (hisbn : (cleanRow raw).get "ISBN" = .str sv)
    (hne : jsTrim sv ≠ "")
    (hex : existsIsbn s.st (jsTrim sv) = true) :
    importRow fetch faults s raw =
      .ok { s with skippedBooksCount := s.skippedBooksCount + 1,
                   skippedBooks := s.skippedBooks ++
                     [((cleanRow raw).get "Title", (cleanRow raw).get "Author")] } := by
  have hsv : sv ≠ "" := by
    intro he
    subst he
    exact hne rfl
  have hdup : rowIsDuplicate s.st (cleanRow raw) = true := by
    unfold rowIsDuplicate
    rw [hisbn]
    simp [hsv, hne, hex]
  unfold importRow
  rw [if_pos hdup]
  rfl

/-- Witness for the amended C1: a row ISBN ` 99` (with a leading space)
matches the stored raw ISBN `99` after trimming and is skipped. -/
theorem import_isbn_exact_match_skips_witness :
    (cleanRow [("Title", "A"), ("Author", "B"), ("ISBN", " 99")]).get "ISBN" = .str " 99" ∧
    jsTrim " 99" ≠ "" ∧
    existsIsbn stIsbnW (jsTrim " 99") = true ∧
    importRow fetchNone noFaults (initImportState stIsbnW)
        [("Title", "A"), ("Author", "B"), ("ISBN", " 99")] =
      .ok { initImportState stIsbnW with
              skippedBooksCount := 1,
              skippedBooks := [((cleanRow [("Title", "A"), ("Author", "B"), ("ISBN", " 99")]).get "Title",
                (cleanRow [("Title", "A"), ("Author", "B"), ("ISBN", " 99")]).get "Author")] } :=
  ⟨by decide, by decide, by decide,
    import_isbn_exact_match_skips fetchNone noFaults (initImportState stIsbnW)
      [("Title", "A"), ("Author", "B"), ("ISBN", " 99")] " 99"
      (by decide) (by decide) (by decide)⟩

/-! ## C4: the title/author fallback of the Duplicate Resolver -/

/-- A store holding one record with `Title = "T"` and an empty `Author`,
created through the unvalidated manual-create endpoint. -/
def stTitleEmpty : Store :=
  createBook fetchNone emptyStore [("Title", .str "T"), ("Author", .str "")]

/-- Counterexample to C4: a row without ISBN whose `Title` and `Author`
strings exactly equal a stored record's (`"T"` and `""`) is nevertheless
not classified a duplicate, because the code short-circuits on falsy
(empty) `Title`/`Author` before querying. -/
theorem fallback_iff_counterexample :
    (∃ b ∈ stTitleEmpty.books,
        b.cells.get "Title" = .str "T" ∧ b.cells.get "Author" = .str "") ∧
    (cleanRow [("Title", "T"), ("Author", "")]).get "ISBN" = .undef ∧
    (cleanRow [("Title", "T"), ("Author", "")]).get "Title" = .str "T" ∧
    (cleanRow [("Title", "T"), ("Author", "")]).get "Author" = .str "" ∧
    rowIsDuplicate stTitleEmpty (cleanRow [("Title", "T"), ("Author", "")]) = false := by
  refine ⟨by decide, by decide, by decide, by decide, by decide⟩

/-- The fallback query succeeds exactly when some stored record carries
the given title and author strings. -/
theorem existsTitleAuthor_str (st : Store) (t a : String) :
    existsTitleAuthor st (.str t) (.str a) = true ↔
      ∃ b ∈ st.books, b.cells.get "Title" = .str t ∧ b.cells.get "Author" = .str a := by
  unfold existsTitleAuthor
  rw [List.any_eq_true]
  constructor
  · rintro ⟨b, hb, hp⟩
    rw [Bool.and_eq_true] at hp
    exact ⟨b, hb, (sqlEq_str _ _).mp hp.1, (sqlEq_str _ _).mp hp.2⟩
  · rintro ⟨b, hb, h1, h2⟩
    refine ⟨b, hb, ?_⟩
    rw [Bool.and_eq_true]
    exact ⟨(sqlEq_str _ _).mpr h1, (sqlEq_str _ _).mpr h2⟩

/-- C4 (amended).  The fallback is only consulted when the ISBN rule
produced no match; for a row lacking an ISBN it holds that: if `Title`
and `Author` are non-empty strings, the row is a duplicate exactly when
some stored record carries the identical (case-sensitive) `Title` and
`Author`; and if `Title` or `Author` is empty or absent, the row is never
classified a duplicate, even when a stored record matches. -/
theorem fallback_title_author_rule (st : Store) (row : Row)
    (hisbn : row.get "ISBN" = .undef ∨ row.get "ISBN" = .null ∨ row.get "ISBN" = .str "") :
    (∀ t a : String, row.get "Title" = .str t → row.get "Author" = .str a →
        t ≠ "" → a ≠ "" →
        (rowIsDuplicate st row = true ↔
          ∃ b ∈ st.books, b.cells.get "Title" = .str t ∧ b.cells.get "Author" = .str a)) ∧
    ((row.get "Title").truthy = false ∨ (row.get "Author").truthy = false →
      rowIsDuplicate st row = false) := by
  have hno : (match row.get "ISBN" with
      | .str s => s ≠ "" && jsTrim s ≠ "" && existsIsbn st (jsTrim s)
      | _ => false) = false := by
    rcases hisbn with h | h | h <;> simp [h]
  constructor
  · intro t a ht ha htne hane
    unfold rowIsDuplicate
    rw [hno, ht, ha]
    have htt : (JsVal.str t).truthy = true := by simp [JsVal.truthy, htne]
    have hta : (JsVal.str a).truthy = true := by simp [JsVal.truthy, hane]
    rw [Bool.false_or, htt, hta, Bool.true_and, Bool.true_and]
    exact existsTitleAuthor_str st t a
  · intro hfalsy
    unfold rowIsDuplicate
    rw [hno]
    rcases hfalsy with h | h <;> simp [h]

/-- Witness for the amended C4 at a concrete store and row. -/
theorem fallback_title_author_rule_witness :
    ((cleanRow [("Title", "X"), ("Author", "Y")]).get "ISBN" = .undef) ∧
    (rowIsDuplicate stIsbn (cleanRow [("Title", "X"), ("Author", "Y")]) = true ↔
      ∃ b ∈ stIsbn.books, b.cells.get "Title" = .str "X" ∧ b.cells.get "Author" = .str "Y") :=
  ⟨by decide,
    (fallback_title_author_rule stIsbn (cleanRow [("Title", "X"), ("Author", "Y")])
        (Or.inl (by decide))).1 "X" "Y" (by decide) (by decide) (by decide) (by decide)⟩

/-! ## C2: batch rollback on an unexpected store error -/

/-- The loop of `runImport` starts from the fresh per-call state. -/
theorem runImport_eq (fetch : String → Option String) (faults : Nat → Bool)
    (rows : List RawRow) (st : Store) :
    runImport fetch faults rows st =
      List.foldlM (importRow fetch faults) (initImportState st) rows := rfl

/-- One row-processing step either performs no `INSERT` — identically for
every fault environment — or attempts exactly one `INSERT`, which succeeds
like the fault-free step when no fault is injected at the current insert
index and raises the store error when one is. -/
theorem importRow_step (fetch : String → Option String) (faults : Nat → Bool)
    (s : ImportState) (raw : RawRow) :
    (∃ s1, importRow fetch faults s raw = .ok s1 ∧
        importRow fetch noFaults s raw = .ok s1 ∧
        s1.st = s.st ∧ s1.inserts = s.inserts ∧
        s1.newBooksCount = s.newBooksCount) ∨
    (∃ s1, importRow fetch noFaults s raw = .ok s1 ∧
        s1.inserts = s.inserts + 1 ∧ s1.newBooksCount = s.newBooksCount + 1 ∧
        (faults s.inserts = false → importRow fetch faults s raw = .ok s1) ∧
        (faults s.inserts = true →
          importRow fetch faults s raw = .error "database fault")) := by
  by_cases hdup : rowIsDuplicate s.st (cleanRow raw) = true
  · refine Or.inl ⟨skipState s (cleanRow raw), ?_, ?_, rfl, rfl, rfl⟩ <;>
      simp [importRow, hdup]
  · rw [Bool.not_eq_true] at hdup
    by_cases hsk : (validCols (preparedRow fetch (cleanRow raw))).isEmpty
        || !((preparedRow fetch (cleanRow raw)).get "Title").truthy
        || !((preparedRow fetch (cleanRow raw)).get "Author").truthy
    · refine Or.inl ⟨s, ?_, ?_, rfl, rfl, rfl⟩ <;> simp [importRow, hdup, hsk]
    · rw [Bool.not_eq_true] at hsk
      refine Or.inr ⟨insertState fetch s (cleanRow raw),
        ?_, rfl, rfl, fun hf => ?_, fun hf => ?_⟩
      · simp [importRow, hdup, hsk, noFaults]
      · simp [importRow, hdup, hsk, hf]
      · simp [importRow, hdup, hsk, hf]

/-- Insert counters never decrease along the fault-free loop. -/
theorem run_inserts_mono (fetch : String → Option String) (rows : List RawRow) :
    ∀ s s' : ImportState,
      List.foldlM (importRow fetch noFaults) s rows = .ok s' →
      s.inserts ≤ s'.inserts := by
  induction rows with
  | nil =>
    intro s s' h
    cases h
    exact le_refl _
  | cons raw rows ih =>
    intro s s' h
    rcases importRow_step fetch noFaults s raw with
      ⟨s1, _, hok, _, hi, _⟩ | ⟨s1, hok, hi, _, _, _⟩
    · rw [List.foldlM_cons, hok] at h
      exact hi ▸ ih s1 s' h
    · rw [List.foldlM_cons, hok] at h
      have := ih s1 s' h
      omega

/-- Along the fault-free loop the new-books counter and the insert counter
advance together. -/
theorem run_newBooks_eq_inserts (fetch : String → Option String) (rows : List RawRow) :
    ∀ s s' : ImportState, s.newBooksCount = s.inserts →
      List.foldlM (importRow fetch noFaults) s rows = .ok s' →
      s'.newBooksCount = s'.inserts := by
  induction rows with
  | nil =>
    intro s s' he h
    cases h
    exact he
  | cons raw rows ih =>
    intro s s' he h
    rcases importRow_step fetch noFaults s raw with
      ⟨s1, _, hok, _, hi, hn⟩ | ⟨s1, hok, hi, hn, _, _⟩
    · rw [List.foldlM_cons, hok] at h
      exact ih s1 s' (by omega) h
    · rw [List.foldlM_cons, hok] at h
      exact ih s1 s' (by omega) h

/-- A store fault injected at insert index `k` aborts the loop exactly
when the fault-free loop would have performed more than `k` inserts, and
reproduces the fault-free run otherwise. -/
theorem run_fault_split (fetch : String → Option String) (k : Nat) :
    ∀ (rows : List RawRow) (s s' : ImportState), s.inserts ≤ k →
      List.foldlM (importRow fetch noFaults) s rows = .ok s' →
      (s'.inserts ≤ k →
        List.foldlM (importRow fetch (fun i => i = k)) s rows = .ok s') ∧
      (k < s'.inserts →
        List.foldlM (importRow fetch (fun i => i = k)) s rows =
          .error "database fault") := by
  intro rows
  induction rows with
  | nil =>
    intro s s' hk h
    cases h
    exact ⟨fun _ => rfl, fun hlt => absurd hlt (by omega)⟩
  | cons raw rows ih =>
    intro s s' hk h
    rcases importRow_step fetch (fun i => i = k) s raw with
      ⟨s1, hokf, hok, _, hi, _⟩ | ⟨s1, hok, hi, _, hnof, hfault⟩
    · rw [List.foldlM_cons, hok] at h
      have := ih s1 s' (by omega) h
      constructor
      · intro hle
        rw [List.foldlM_cons, hokf]
        exact this.1 hle
      · intro hlt
        rw [List.foldlM_cons, hokf]
        exact this.2 hlt
    · rw [List.foldlM_cons, hok] at h
      by_cases hik : s.inserts = k
      · have hrest := run_inserts_mono fetch rows s1 s' h
        have herr := hfault (by simp [hik])
        have hgt : k < s'.inserts := by omega
        refine ⟨fun hle => absurd hle (by omega), fun _ => ?_⟩
        rw [List.foldlM_cons, herr]
        rfl
      · have hstep := hnof (by simp [hik])
        have := ih s1 s' (by omega) h
        constructor
        · intro hle
          rw [List.foldlM_cons, hstep]
          exact this.1 hle
        · intro hlt
          rw [List.foldlM_cons, hstep]
          exact this.2 hlt

/-- C2.  If a batch whose fault-free run would insert more than `k` new
records meets an unexpected store error at its `(k+1)`-th `INSERT`, the
whole transaction is rolled back — the resulting store is exactly the
original store, with zero records of the batch persisted — and the caller
receives the single failure message instead of a summary of counts. -/
theorem import_store_fault_rolls_back (fetch : String → Option String)
    (rows : List RawRow) (st : Store) (k : Nat) (s : ImportState)
    (hrun : runImport fetch noFaults rows st = .ok s)
    (hk : k < s.newBooksCount) :
    importEndpoint fetch (fun i => i = k) rows st =
      (st, .failure
        "Failed to import books: database fault. All changes have been rolled back.") := by
  rw [runImport_eq] at hrun
  have hcnt : s.newBooksCount = s.inserts :=
    run_newBooks_eq_inserts fetch rows (initImportState st) s rfl hrun
  have hsplit := run_fault_split fetch k rows (initImportState st) s (by
    simp [initImportState]) hrun
  have herr := hsplit.2 (by omega)
  unfold importEndpoint
  rw [runImport_eq, herr]
  rfl

/-- Five valid rows, matching the spec's rollback scenario. -/
def fileFive : List RawRow :=
  [[("Title", "a"), ("Author", "a")], [("Title", "b"), ("Author", "b")],
   [("Title", "c"), ("Author", "c")], [("Title", "d"), ("Author", "d")],
   [("Title", "e"), ("Author", "e")]]

/-- The state reached by the fault-free run of `fileFive`. -/
def pureRunFive : ImportState :=
  (runImport fetchNone noFaults fileFive emptyStore).toOption.getD
    (initImportState emptyStore)

/-- Witness for C2: five valid rows, store fault at the third insert,
whole batch rolled back and a single failure message returned. -/
theorem import_store_fault_rolls_back_witness :
    runImport fetchNone noFaults fileFive emptyStore = .ok pureRunFive ∧
    2 < pureRunFive.newBooksCount ∧
    importEndpoint fetchNone (fun i => i = 2) fileFive emptyStore =
      (emptyStore, .failure
        "Failed to import books: database fault. All changes have been rolled back.") :=
  ⟨rfl, by decide,
    import_store_fault_rolls_back fetchNone fileFive emptyStore 2 pureRunFive rfl (by decide)⟩

/-! ## Key-uniqueness machinery

CSV headers are unique, so the rows entering the pipeline have pairwise
distinct keys; the object operations preserve that. -/

/-- The keys of a row. -/
def rowKeys (r : Row) : List String := r.map Prod.fst

theorem get_eq_undef_of_not_mem_keys (r : Row) (k : String)
    (h : k ∉ rowKeys r) : r.get k = .undef := by
  induction r with
  | nil => rfl
  | cons p r ih =>
    simp only [rowKeys, List.map_cons, List.mem_cons, not_or] at h
    have hp : ¬(p.1 = k) := fun he => h.1 he.symm
    simpa [Row.get, List.find?, decide_eq_false hp] using ih (by simpa [rowKeys] using h.2)

theorem rowKeys_set_nodup (r : Row) (k : String) (v : JsVal)
    (h : (rowKeys r).Nodup) : (rowKeys (r.set k v)).Nodup := by
  unfold Row.set
  split
  · have : rowKeys (r.map (fun p => if p.1 = k then (k, v) else p)) = rowKeys r := by
      unfold rowKeys
      rw [List.map_map]
      refine List.map_congr_left ?_
      intro p _
      by_cases hp : p.1 = k
      · simp [hp]
      · simp [hp]
    rw [this]
    exact h
  · rename_i hany
    have hk : k ∉ rowKeys r := by
      intro hmem
      obtain ⟨p, hp, hpk⟩ := List.mem_map.mp hmem
      exact hany (List.any_eq_true.mpr ⟨p, hp, by simpa using hpk⟩)
    unfold rowKeys
    rw [List.map_append]
    simp only [List.map_cons, List.map_nil]
    refine List.Nodup.append h (List.nodup_singleton k) ?_
    intro a ha hb
    rw [List.mem_singleton] at hb
    subst hb
    exact hk ha

theorem rowKeys_del_nodup (r : Row) (k : String)
    (h : (rowKeys r).Nodup) : (rowKeys (r.del k)).Nodup := by
  unfold Row.del rowKeys
  exact List.Nodup.sublist (List.Sublist.map Prod.fst (List.filter_sublist r)) h

theorem rowKeys_toRow (raw : RawRow) : rowKeys raw.toRow = raw.map Prod.fst := by
  unfold rowKeys RawRow.toRow
  rw [List.map_map]
  rfl

theorem rowKeys_cleanAdded_nodup (r : Row) (h : (rowKeys r).Nodup) :
    (rowKeys (cleanAdded r)).Nodup := by
  unfold cleanAdded
  cases normalizeDateVal (r.get "Added Date") with
  | some s => exact rowKeys_set_nodup _ _ _ h
  | none => exact rowKeys_del_nodup _ _ h

theorem rowKeys_cleanReading_nodup (r : Row) (c : String) (h : (rowKeys r).Nodup) :
    (rowKeys (cleanReading r c)).Nodup := by
  unfold cleanReading
  cases normalizeDateVal (r.get c) with
  | some s => exact rowKeys_set_nodup _ _ _ h
  | none => exact rowKeys_set_nodup _ _ _ h

theorem rowKeys_cleanBoolCol_nodup (r : Row) (c : String) (h : (rowKeys r).Nodup) :
    (rowKeys (cleanBoolCol r c)).Nodup := by
  unfold cleanBoolCol
  split
  · split
    · exact rowKeys_set_nodup _ _ _ h
    · exact h
  · exact h

theorem rowKeys_cleanWishlist_nodup (r : Row) (h : (rowKeys r).Nodup) :
    (rowKeys (cleanWishlist r)).Nodup := by
  unfold cleanWishlist
  split
  · split
    · exact rowKeys_set_nodup _ _ _ h
    · exact h
  · exact h

theorem rowKeys_cleanNumCol_nodup (r : Row) (c : String) (h : (rowKeys r).Nodup) :
    (rowKeys (cleanNumCol r c)).Nodup := by
  unfold cleanNumCol
  split <;> exact rowKeys_set_nodup _ _ _ h

theorem rowKeys_cleanRow_nodup (raw : RawRow) (h : (raw.map Prod.fst).Nodup) :
    (rowKeys (cleanRow raw)).Nodup := by
  unfold cleanRow
  simp only [numericFields, List.foldl_cons, List.foldl_nil]
  refine rowKeys_cleanNumCol_nodup _ _ (rowKeys_cleanNumCol_nodup _ _
    (rowKeys_cleanNumCol_nodup _ _ (rowKeys_cleanNumCol_nodup _ _
      (rowKeys_cleanNumCol_nodup _ _ (rowKeys_cleanNumCol_nodup _ _
        (rowKeys_cleanWishlist_nodup _ (rowKeys_cleanBoolCol_nodup _ _
          (rowKeys_cleanBoolCol_nodup _ _ (rowKeys_cleanReading_nodup _ _
            (rowKeys_cleanReading_nodup _ _ (rowKeys_cleanAdded_nodup _ ?_)))))))))))
  rw [rowKeys_toRow]
  exact h

theorem rowKeys_preparedRow_nodup (fetch : String → Option String) (row : Row)
    (h : (rowKeys row).Nodup) : (rowKeys (preparedRow fetch row)).Nodup := by
  unfold preparedRow
  exact rowKeys_del_nodup _ _ (rowKeys_set_nodup _ _ _ (rowKeys_set_nodup _ _ _ h))

/-- Lookup after filtering, for rows with unique keys: the unique entry of
the key survives exactly when the filter predicate holds of it. -/
theorem get_filter_of_nodup (r : Row) (P : String × JsVal → Bool) (k : String)
    (hnd : (rowKeys r).Nodup) :
    Row.get (List.filter P r) k =
      match Row.get r k with
      | .undef => .undef
      | v => if P (k, v) then v else .undef := by
  induction r with
  | nil => cases hP : P (k, JsVal.undef) <;> simp [Row.get, List.find?, hP]
  | cons p r ih =>
    obtain ⟨p1, pv⟩ := p
    simp only [rowKeys, List.map_cons, List.nodup_cons] at hnd
    by_cases hp : p1 = k
    · subst hp
      have hget : Row.get ((p1, pv) :: r) p1 = pv := by
        simp [Row.get, List.find?]
      rw [hget]
      have hrest : Row.get r p1 = .undef :=
        get_eq_undef_of_not_mem_keys r p1 (by simpa [rowKeys] using hnd.1)
      cases hP : P (p1, pv) with
      | true =>
        simp only [List.filter_cons, hP, if_true]
        cases pv <;> simp [Row.get, List.find?, hP]
      | false =>
        simp only [List.filter_cons, hP, Bool.false_eq_true, if_false]
        have hsub : Row.get (List.filter P r) p1 = .undef := by
          rw [ih hnd.2, hrest]
        rw [hsub]
        cases pv <;> simp [hP]
    · have hstep : Row.get ((p1, pv) :: r) k = Row.get r k := by
        simp [Row.get, List.find?, decide_eq_false hp]
      rw [hstep]
      cases hP : P (p1, pv) with
      | true =>
        simp only [List.filter_cons, hP, if_true]
        rw [show Row.get ((p1, pv) :: List.filter P r) k = Row.get (List.filter P r) k by
          simp [Row.get, List.find?, decide_eq_false hp]]
        exact ih hnd.2
      | false =>
        simp only [List.filter_cons, hP, Bool.false_eq_true, if_false]
        exact ih hnd.2

/-! ## C3: idempotence of re-importing an unchanged file -/

/-- Store growth: every record of the first store is in the second. -/
def storeLe (st st' : Store) : Prop := ∀ b ∈ st.books, b ∈ st'.books

theorem storeLe_refl (st : Store) : storeLe st st := fun _ hb => hb

theorem storeLe_trans {s1 s2 s3 : Store} (h12 : storeLe s1 s2) (h23 : storeLe s2 s3) :
    storeLe s1 s3 := fun b hb => h23 b (h12 b hb)

theorem existsIsbn_mono (st st' : Store) (s : String) (hle : storeLe st st')
    (h : existsIsbn st s = true) : existsIsbn st' s = true := by
  simp only [existsIsbn, List.any_eq_true] at h ⊢
  obtain ⟨b, hb, hp⟩ := h
  exact ⟨b, hle b hb, hp⟩

theorem existsTitleAuthor_mono (st st' : Store) (t a : JsVal) (hle : storeLe st st')
    (h : existsTitleAuthor st t a = true) : existsTitleAuthor st' t a = true := by
  simp only [existsTitleAuthor, List.any_eq_true] at h ⊢
  obtain ⟨b, hb, hp⟩ := h
  exact ⟨b, hle b hb, hp⟩

/-- Duplicate classification is monotone in the store: a record that made
a row a duplicate is still there after more insertions. -/
theorem rowIsDuplicate_mono (st st' : Store) (row : Row) (hle : storeLe st st')
    (h : rowIsDuplicate st row = true) : rowIsDuplicate st' row = true := by
  unfold rowIsDuplicate at h ⊢
  rw [Bool.or_eq_true] at h ⊢
  rcases h with h | h
  · left
    cases hv : row.get "ISBN" <;> rw [hv] at h <;> try cases h
    rename_i sv
    simp only [Bool.and_eq_true] at h ⊢
    exact ⟨h.1, existsIsbn_mono st st' (jsTrim sv) hle h.2⟩
  · right
    simp only [Bool.and_eq_true] at h ⊢
    exact ⟨h.1, existsTitleAuthor_mono st st' _ _ hle h.2⟩

/-- The record appended by an `INSERT`, with its assigned cells. -/
theorem insertRecord_spec (st : Store) (assigned : Row) :
    ∃ b : Book, (insertRecord st assigned).books = st.books ++ [b] ∧
      b.id = st.nextId ∧
      ∀ c ∈ tableColumns, b.cells.get c = insVal st assigned c :=
  ⟨_, rfl, rfl, fun c hc => get_mapCols (insVal st assigned) tableColumns c hc⟩

/-- Untouched keys pass through cover materialization. -/
theorem get_preparedRow_ne (fetch : String → Option String) (row : Row) (k : String)
    (h1 : k ≠ "Icon Path") (h2 : k ≠ "Photo Path") (h3 : k ≠ "Image Url") :
    (preparedRow fetch row).get k = row.get k := by
  unfold preparedRow
  rw [Row.get_del_ne _ _ _ h3, Row.get_set_ne _ _ _ _ h2, Row.get_set_ne _ _ _ _ h1]

/-- A row whose lookup succeeds is not the empty object. -/
theorem isEmpty_false_of_get (r : Row) (k : String) (v : JsVal)
    (hv : Row.get r k = v) (hne : v ≠ .undef) : r.isEmpty = false := by
  cases r with
  | nil => exact absurd (hv.symm.trans rfl) hne
  | cons p r => rfl

/-- Processing one row with unique headers and non-empty title and author:
the row is either classified a duplicate of the current transaction state
and skipped, or inserted as a record carrying exactly its title and
author strings. -/
theorem importRow_valid_step (fetch : String → Option String) (s : ImportState)
    (raw : RawRow) (t a : String)
    (hnd : (raw.map Prod.fst).Nodup)
    (ht : RawRow.get raw "Title" = some t) (htne : t ≠ "")
    (ha : RawRow.get raw "Author" = some a) (hane : a ≠ "") :
    (rowIsDuplicate s.st (cleanRow raw) = true ∧
      importRow fetch noFaults s raw = .ok (skipState s (cleanRow raw))) ∨
    (importRow fetch noFaults s raw = .ok (insertState fetch s (cleanRow raw)) ∧
      ∃ b : Book, (insertState fetch s (cleanRow raw)).st.books = s.st.books ++ [b] ∧
        b.cells.get "Title" = .str t ∧ b.cells.get "Author" = .str a) := by
  have hct : (cleanRow raw).get "Title" = .str t := by
    rw [get_cleanRow_passthrough raw "Title" (by decide) (by decide) (by decide)
        (by decide) (by decide) (by decide) (by decide), RawRow.get_toRow, ht]
  have hca : (cleanRow raw).get "Author" = .str a := by
    rw [get_cleanRow_passthrough raw "Author" (by decide) (by decide) (by decide)
        (by decide) (by decide) (by decide) (by decide), RawRow.get_toRow, ha]
  by_cases hdup : rowIsDuplicate s.st (cleanRow raw) = true
  · refine Or.inl ⟨hdup, ?_⟩
    unfold importRow
    rw [if_pos hdup]
  · have hpt : (preparedRow fetch (cleanRow raw)).get "Title" = .str t := by
      rw [get_preparedRow_ne fetch _ _ (by decide) (by decide) (by decide), hct]
    have hpa : (preparedRow fetch (cleanRow raw)).get "Author" = .str a := by
      rw [get_preparedRow_ne fetch _ _ (by decide) (by decide) (by decide), hca]
    have hndp : (rowKeys (preparedRow fetch (cleanRow raw))).Nodup :=
      rowKeys_preparedRow_nodup fetch _ (rowKeys_cleanRow_nodup raw hnd)
    have hvt : Row.get (validCols (preparedRow fetch (cleanRow raw))) "Title" = .str t := by
      unfold validCols
      rw [get_filter_of_nodup _ _ _ hndp, hpt]
      simp [htne]
    have hva : Row.get (validCols (preparedRow fetch (cleanRow raw))) "Author" = .str a := by
      unfold validCols
      rw [get_filter_of_nodup _ _ _ hndp, hpa]
      simp [hane]
    have hemp : (validCols (preparedRow fetch (cleanRow raw))).isEmpty = false :=
      isEmpty_false_of_get _ _ _ hvt (by simp)
    have htt : ((preparedRow fetch (cleanRow raw)).get "Title").truthy = true := by
      rw [hpt]
      simp [JsVal.truthy, htne]
    have hta : ((preparedRow fetch (cleanRow raw)).get "Author").truthy = true := by
      rw [hpa]
      simp [JsVal.truthy, hane]
    have hstep : importRow fetch noFaults s raw = .ok (insertState fetch s (cleanRow raw)) := by
      unfold importRow
      rw [Bool.not_eq_true] at hdup
      rw [if_neg (by simp [hdup]), if_neg (by simp [hemp, htt, hta]),
        if_neg (by simp [noFaults])]
    refine Or.inr ⟨hstep, ?_⟩
    obtain ⟨b, hbooks, _, hcells⟩ :=
      insertRecord_spec s.st (validCols (preparedRow fetch (cleanRow raw)))
    refine ⟨b, hbooks, ?_, ?_⟩
    · rw [hcells "Title" (by decide), insVal, hvt]
    · rw [hcells "Author" (by decide), insVal, hva]

/-- Validity of an import file: unique headers and a non-empty title and
author in every row. -/
def validFile (rows : List RawRow) : Prop :=
  ∀ raw ∈ rows, (raw.map Prod.fst).Nodup ∧
    ∃ t a : String, RawRow.get raw "Title" = some t ∧ t ≠ "" ∧
      RawRow.get raw "Author" = some a ∧ a ≠ ""

/-- After a fault-free run over a valid file, every row of the file is
classified a duplicate of the resulting store. -/
theorem run1_all_dup (fetch : String → Option String) (rows : List RawRow) :
    ∀ s s' : ImportState, validFile rows →
      List.foldlM (importRow fetch noFaults) s rows = .ok s' →
      storeLe s.st s'.st ∧
        ∀ raw ∈ rows, rowIsDuplicate s'.st (cleanRow raw) = true := by
  induction rows with
  | nil =>
    intro s s' _ h
    cases h
    exact ⟨storeLe_refl _, by simp⟩
  | cons raw rows ih =>
    intro s s' hv h
    obtain ⟨hnd, t, a, ht, htne, ha, hane⟩ := hv raw (List.mem_cons_self raw rows)
    have hvrest : validFile rows := fun r hr => hv r (List.mem_cons_of_mem raw hr)
    rcases importRow_valid_step fetch s raw t a hnd ht htne ha hane with
      ⟨hdup, hok⟩ | ⟨hok, b, hbooks, hbt, hba⟩
    · rw [List.foldlM_cons, hok] at h
      have hrec := ih (skipState s (cleanRow raw)) s' hvrest h
      have hle : storeLe s.st s'.st := hrec.1
      refine ⟨hle, ?_⟩
      intro r hr
      rcases List.mem_cons.mp hr with rfl | hr2
      · exact rowIsDuplicate_mono s.st s'.st _ hle hdup
      · exact hrec.2 r hr2
    · rw [List.foldlM_cons, hok] at h
      have hrec := ih (insertState fetch s (cleanRow raw)) s' hvrest h
      have hle1 : storeLe s.st (insertState fetch s (cleanRow raw)).st := by
        intro x hx
        rw [hbooks]
        exact List.mem_append_left _ hx
      have hle : storeLe s.st s'.st := storeLe_trans hle1 hrec.1
      refine ⟨hle, ?_⟩
      intro r hr
      rcases List.mem_cons.mp hr with rfl | hr2
      · have hct : (cleanRow r).get "Title" = .str t := by
          rw [get_cleanRow_passthrough r "Title" (by decide) (by decide) (by decide)
              (by decide) (by decide) (by decide) (by decide), RawRow.get_toRow, ht]
        have hca : (cleanRow r).get "Author" = .str a := by
          rw [get_cleanRow_passthrough r "Author" (by decide) (by decide) (by decide)
              (by decide) (by decide) (by decide) (by decide), RawRow.get_toRow, ha]
        have hdup1 : rowIsDuplicate (insertState fetch s (cleanRow r)).st (cleanRow r) = true := by
          unfold rowIsDuplicate
          rw [Bool.or_eq_true]
          right
          rw [hct, hca]
          simp only [Bool.and_eq_true, JsVal.truthy]
          refine ⟨⟨by simpa using htne, by simpa using hane⟩, ?_⟩
          refine (existsTitleAuthor_str _ t a).mpr ⟨b, ?_, hbt, hba⟩
          rw [hbooks]
          exact List.mem_append_right _ (List.mem_singleton_self b)
        exact rowIsDuplicate_mono _ _ _ hrec.1 hdup1
      · exact hrec.2 r hr2

/-- Running the loop over rows that are all duplicates of the current
store skips every row: the store is unchanged, nothing is inserted, and
the skip counter grows by the number of rows. -/
theorem run2_all_skip (fetch : String → Option String) (rows : List RawRow) :
    ∀ s : ImportState,
      (∀ raw ∈ rows, rowIsDuplicate s.st (cleanRow raw) = true) →
      ∃ s' : ImportState, List.foldlM (importRow fetch noFaults) s rows = .ok s' ∧
        s'.st = s.st ∧ s'.newBooksCount = s.newBooksCount ∧
        s'.skippedBooksCount = s.skippedBooksCount + rows.length := by
  induction rows with
  | nil =>
    intro s _
    exact ⟨s, rfl, rfl, rfl, by simp⟩
  | cons raw rows ih =>
    intro s hdup
    have hstep : importRow fetch noFaults s raw = .ok (skipState s (cleanRow raw)) := by
      unfold importRow
      rw [if_pos (hdup raw (List.mem_cons_self raw rows))]
    obtain ⟨s', hok, hst, hnew, hskip⟩ := ih (skipState s (cleanRow raw))
      (fun r hr => hdup r (List.mem_cons_of_mem raw hr))
    refine ⟨s', ?_, hst, hnew, ?_⟩
    · rw [List.foldlM_cons, hstep]
      exact hok
    · rw [hskip]
      simp only [skipState, List.length_cons]
      omega

/-- C3 (amended).  For a file whose rows all have unique headers and a
non-empty `Title` and `Author`, re-running the import against the store
produced by a first run skips every row as a duplicate: the second run
inserts zero records (`newBooksCount = 0`), counts every row as skipped
(`skippedBooksCount` equals the number of rows), and leaves the store
unchanged.  Rows with an empty or absent `Title`/`Author` are excluded:
the pipeline drops them silently in both runs without counting them. -/
theorem import_rerun_skips_all_valid_rows (fetch : String → Option String)
    (rows : List RawRow) (st : Store) (s1 s2 : ImportState)
    (hvalid : validFile rows)
    (hrun1 : runImport fetch noFaults rows st = .ok s1)
    (hrun2 : runImport fetch noFaults rows s1.st = .ok s2) :
    s2.newBooksCount = 0 ∧ s2.skippedBooksCount = rows.length ∧ s2.st = s1.st := by
  rw [runImport_eq] at hrun1 hrun2
  have h1 := run1_all_dup fetch rows (initImportState st) s1 hvalid hrun1
  obtain ⟨s2', hok, hst, hnew, hskip⟩ :=
    run2_all_skip fetch rows (initImportState s1.st) h1.2
  rw [hrun2] at hok
  cases hok
  refine ⟨hnew, ?_, hst⟩
  rw [hskip]
  simp [initImportState]

/-- The two-row valid file of the witness. -/
def fileTwo : List RawRow :=
  [[("Title", "T1"), ("Author", "A1"), ("ISBN", "11")],
   [("Title", "T2"), ("Author", "A2")]]

/-- State after the first import of `fileTwo` into the empty store. -/
def rerunS1 : ImportState :=
  (runImport fetchNone noFaults fileTwo emptyStore).toOption.getD
    (initImportState emptyStore)

/-- State after re-importing `fileTwo` against the already-imported store. -/
def rerunS2 : ImportState :=
  (runImport fetchNone noFaults fileTwo rerunS1.st).toOption.getD
    (initImportState emptyStore)

/-- Witness for the amended C3 on a concrete two-row file. -/
theorem import_rerun_skips_all_valid_rows_witness :
    runImport fetchNone noFaults fileTwo emptyStore = .ok rerunS1 ∧
    runImport fetchNone noFaults fileTwo rerunS1.st = .ok rerunS2 ∧
    (rerunS2.newBooksCount = 0 ∧ rerunS2.skippedBooksCount = fileTwo.length ∧
      rerunS2.st = rerunS1.st) := by
  refine ⟨rfl, rfl, ?_⟩
  refine import_rerun_skips_all_valid_rows fetchNone fileTwo emptyStore rerunS1 rerunS2
    ?_ rfl rfl
  intro raw hmem
  rcases List.mem_cons.mp hmem with rfl | hmem2
  · exact ⟨by decide, "T1", "A1", rfl, by decide, rfl, by decide⟩
  rcases List.mem_cons.mp hmem2 with rfl | hmem3
  · exact ⟨by decide, "T2", "A2", rfl, by decide, rfl, by decide⟩
  · cases hmem3

/-- Counterexample to C3 as stated: a one-row file whose `Title` is empty
is dropped silently by the first run (nothing is inserted, nothing is
counted), so the store after the first run is unchanged and the second
run — the identical call — skips nothing: `skippedBooksCount` is `0`,
not the row count `1`. -/
theorem import_idempotence_counterexample :
    ((runImport fetchNone noFaults [[("Title", ""), ("Author", "B"), ("ISBN", "999")]]
        emptyStore).toOption.map
      (fun s => (s.st == emptyStore, s.newBooksCount, s.skippedBooksCount)) =
      some (true, 0, 0)) ∧
    ([[("Title", ""), ("Author", "B"), ("ISBN", "999")]] : List RawRow).length = 1 := by
  refine ⟨by decide, rfl⟩

/-! ## Cover Asset Store and the delete endpoints (C10) -/

/-- Generic association-list lookup by key. -/
def alookup {α : Type} (l : List (String × α)) (k : String) : Option α :=
  (l.find? (fun p => p.1 = k)).map (fun p => p.2)

/-- Generic association-list write with object-assignment semantics
(replace in place, else append). -/
def aput {α : Type} (l : List (String × α)) (k : String) (v : α) : List (String × α) :=
  if l.any (fun p => p.1 = k) then
    l.map (fun p => if p.1 = k then (k, v) else p)
  else
    l ++ [(k, v)]

/-- The cover directory contents: file name to raw bytes. -/
abbrev AssetStore := List (String × List Nat)

/-- Read a cover file. -/
def AssetStore.lookup (a : AssetStore) (name : String) : Option (List Nat) :=
  alookup a name

/-- Remove a cover file (`fs.unlink`, ignoring a missing file). -/
def AssetStore.erase (a : AssetStore) (name : String) : AssetStore :=
  a.filter (fun p => p.1 ≠ name)

/-- Write a cover file (`fs.writeFile`, overwriting). -/
def AssetStore.put (a : AssetStore) (name : String) (bytes : List Nat) : AssetStore :=
  aput a name bytes

/-- JavaScript `path.basename`: the part after the last slash. -/
def basename (p : String) : String :=
  ⟨(p.data.reverse.takeWhile (fun c => c ≠ '/')).reverse⟩

/-- The helper `deleteCover(iconPath)`: the cover file is unlinked only
when the icon path is truthy and starts with `/storage/covers/`. -/
def deleteCover (a : AssetStore) (iconPath : JsVal) : AssetStore :=
  match iconPath with
  | .str p =>
    if p ≠ "" && jsStartsWith p "/storage/covers/" then a.erase (basename p)
    else a
  | _ => a

/-- The single-record delete endpoint: the record's cover is released via
`deleteCover` and the record removed, inside one transaction. -/
def deleteBookEndpoint (st : Store) (a : AssetStore) (id : Nat) : Store × AssetStore :=
  let a1 := match st.books.find? (fun b => b.id = id) with
            | some b => deleteCover a (b.cells.get "Icon Path")
            | none => a
  ({ st with books := st.books.filter (fun b => b.id ≠ id) }, a1)

/-- The bulk delete endpoint: covers of all matched records are released
via `deleteCover` and the records removed; an empty id list is rejected
with no change. -/
def bulkDeleteEndpoint (st : Store) (a : AssetStore) (ids : List Nat) : Store × AssetStore :=
  if ids.isEmpty then (st, a)
  else
    let victims := st.books.filter (fun b => ids.contains b.id)
    let a1 := victims.foldl (fun acc b => deleteCover acc (b.cells.get "Icon Path")) a
    ({ st with books := st.books.filter (fun b => !ids.contains b.id) }, a1)

/-- A fold of no-op cover deletions leaves the asset store unchanged. -/
theorem foldl_deleteCover_id (l : List Book) (a : AssetStore)
    (h : ∀ b ∈ l, ∀ acc : AssetStore, deleteCover acc (b.cells.get "Icon Path") = acc) :
    l.foldl (fun acc b => deleteCover acc (b.cells.get "Icon Path")) a = a := by
  induction l generalizing a with
  | nil => rfl
  | cons b l ih =>
    rw [List.foldl_cons, h b (List.mem_cons_self b l) a]
    exact ih a (fun x hx acc => h x (List.mem_cons_of_mem b hx) acc)

/-- C10.  Deleting records removes the cover file only for icon paths
that start with `/storage/covers/`: a `null` icon path and any other
string icon path (an external URL, say) trigger no asset deletion, while
the record itself is removed in all cases; this holds for the single and
for the bulk delete endpoint. -/
theorem delete_cover_guard :
    (∀ a : AssetStore, deleteCover a .null = a) ∧
    (∀ (a : AssetStore) (p : String), jsStartsWith p "/storage/covers/" = false →
      deleteCover a (.str p) = a) ∧
    (∀ (a : AssetStore) (p : String), p ≠ "" →
      jsStartsWith p "/storage/covers/" = true →
      deleteCover a (.str p) = a.erase (basename p)) ∧
    (∀ (st : Store) (a : AssetStore) (id : Nat),
      (deleteBookEndpoint st a id).1.books = st.books.filter (fun b => b.id ≠ id) ∧
      (∀ b, st.books.find? (fun b => b.id = id) = some b →
        (deleteBookEndpoint st a id).2 = deleteCover a (b.cells.get "Icon Path"))) ∧
    (∀ (st : Store) (a : AssetStore) (ids : List Nat), ids ≠ [] →
      (bulkDeleteEndpoint st a ids).1.books =
        st.books.filter (fun b => !ids.contains b.id) ∧
      ((∀ b ∈ st.books, ids.contains b.id = true →
          ∀ p, b.cells.get "Icon Path" = .str p →
            jsStartsWith p "/storage/covers/" = false) →
        (bulkDeleteEndpoint st a ids).2 = a)) := by
  refine ⟨fun a => rfl, ?_, ?_, ?_, ?_⟩
  · intro a p hp
    simp [deleteCover, hp]
  · intro a p hne hp
    simp [deleteCover, hne, hp]
  · intro st a id
    refine ⟨rfl, ?_⟩
    intro b hb
    unfold deleteBookEndpoint
    rw [hb]
  · intro st a ids hne
    have hnemp : ids.isEmpty = false := by
      cases ids with
      | nil => exact absurd rfl hne
      | cons x xs => rfl
    constructor
    · unfold bulkDeleteEndpoint
      rw [hnemp]
      rfl
    · intro hext
      unfold bulkDeleteEndpoint
      rw [hnemp]
      simp only [Bool.false_eq_true, if_false]
      refine foldl_deleteCover_id _ a ?_
      intro b hbmem acc
      have hbst : b ∈ st.books := List.mem_of_mem_filter hbmem
      have hbc : ids.contains b.id = true := by
        have := List.of_mem_filter hbmem
        simpa using this
      cases hv : b.cells.get "Icon Path" with
      | str p => simp [deleteCover, hext b hbst hbc p hv]
      | undef => rfl
      | null => rfl
      | num q => rfl
      | bool bb => rfl

/-- Fixture for the C10 witness: two records, one internal cover and one
external URL cover. -/
def stDeleteW : Store :=
  { nextId := 3, defaultAdded := "2024-01-01",
    books := [
      { id := 1, cells := [("Title", .str "B1"), ("Author", .str "A1"),
          ("Icon Path", .str "/storage/covers/a.jpg")] },
      { id := 2, cells := [("Title", .str "B2"), ("Author", .str "A2"),
          ("Icon Path", .str "http://example.com/b.jpg")] }] }

/-- Witness for C10: deleting record 1 erases its cover file; deleting
record 2 (an external URL cover) erases nothing; records are removed. -/
theorem delete_cover_guard_witness :
    deleteCover [("a.jpg", [1, 2, 3])] .null = [("a.jpg", [1, 2, 3])] ∧
    deleteCover [("a.jpg", [1, 2, 3])] (.str "http://example.com/b.jpg") =
      [("a.jpg", [1, 2, 3])] ∧
    deleteCover [("a.jpg", [1, 2, 3])] (.str "/storage/covers/a.jpg") =
      AssetStore.erase [("a.jpg", [1, 2, 3])] (basename "/storage/covers/a.jpg") ∧
    (deleteBookEndpoint stDeleteW [("a.jpg", [1, 2, 3])] 1).1.books =
      stDeleteW.books.filter (fun b => b.id ≠ 1) ∧
    (bulkDeleteEndpoint stDeleteW [("a.jpg", [1, 2, 3])] [2]).2 = [("a.jpg", [1, 2, 3])] :=
  ⟨delete_cover_guard.1 _,
   delete_cover_guard.2.1 _ "http://example.com/b.jpg" (by decide),
   delete_cover_guard.2.2.1 _ "/storage/covers/a.jpg" (by decide) (by decide),
   (delete_cover_guard.2.2.2.1 stDeleteW _ 1).1,
   (delete_cover_guard.2.2.2.2 stDeleteW _ [2] (by decide)).2 (by
      intro b hb hc p hv
      rcases List.mem_cons.mp hb with rfl | hb2
      · exact absurd hc (by decide)
      rcases List.mem_cons.mp hb2 with rfl | hb3
      · have hv2 : JsVal.str "http://example.com/b.jpg" = .str p := hv
        injection hv2 with h
        subst h
        decide
      · cases hb3)⟩

/-! ## C8: the lightweight CSV export -/

/-- Insertion into an id-sorted record list. -/
def insertById (b : Book) : List Book → List Book
  | [] => [b]
  | x :: xs => if b.id ≤ x.id then b :: x :: xs else x :: insertById b xs

/-- The `ORDER BY "ID" ASC` result order of `SELECT *`. -/
def sortById : List Book → List Book
  | [] => []
  | x :: xs => insertById x (sortById xs)

theorem length_insertById (b : Book) (l : List Book) :
    (insertById b l).length = l.length + 1 := by
  induction l with
  | nil => rfl
  | cons x xs ih =>
    unfold insertById
    split
    · simp
    · simp [ih]

theorem length_sortById (l : List Book) : (sortById l).length = l.length := by
  induction l with
  | nil => rfl
  | cons x xs ih =>
    unfold sortById
    rw [length_insertById, ih, List.length_cons]

theorem mem_insertById (b x : Book) (l : List Book) :
    x ∈ insertById b l ↔ x = b ∨ x ∈ l := by
  induction l with
  | nil => simp [insertById]
  | cons y ys ih =>
    unfold insertById
    split
    · simp [or_comm, or_assoc, or_left_comm]
    · simp only [List.mem_cons, ih]
      tauto

theorem mem_sortById (x : Book) (l : List Book) : x ∈ sortById l ↔ x ∈ l := by
  induction l with
  | nil => simp [sortById]
  | cons y ys ih =>
    unfold sortById
    rw [mem_insertById, ih, List.mem_cons]

/-- Text of one cell as the CSV writer serializes it (`null` and absent
become the empty field; the textual rendering of a non-integral float is
abstracted by the rational's canonical form). -/
def cellText : JsVal → String
  | .undef => ""
  | .null => ""
  | .str s => s
  | .num q => if q.den = 1 then toString q.num else toString q
  | .bool b => if b then "true" else "false"

/-- Default fast-csv quoting: a field is quoted (with inner quotes
doubled) only when it contains the delimiter, a quote or a row break. -/
def csvQuote (s : String) : String :=
  if s.data.any (fun c => c = ',' || c = '"' || c = '\n' || c = '\r') then
    "\"" ++ ⟨s.data.foldr (fun c acc => if c = '"' then '"' :: '"' :: acc else c :: acc) []⟩ ++ "\""
  else s

/-- Header row: the column order of `SELECT *` (table order, `ID` first). -/
def headerLine : String :=
  String.intercalate "," (("ID" :: tableColumns).map csvQuote)

/-- One record as a CSV row. -/
def bookLine (b : Book) : String :=
  String.intercalate ","
    (csvQuote (toString b.id) :: tableColumns.map (fun c => csvQuote (cellText (b.cells.get c))))

/-- The lightweight export of `server.js`: `csv.write(rows, {headers:
true})` — no byte-order marker is written; an empty table produces empty
output. -/
def exportCsv (st : Store) : String :=
  match sortById st.books with
  | [] => ""
  | bs => String.intercalate "\n" (headerLine :: bs.map bookLine)

/-- The lightweight export of the second server variant: identical but
for the UTF-8 byte-order marker written first. -/
def exportCsvBom (st : Store) : String :=
  "\uFEFF" ++ exportCsv st

/-- A one-record store for the C8 counterexample and witness. -/
def stExportOne : Store :=
  createBook fetchNone emptyStore [("Title", .str "Zażółć"), ("Author", .str "A")]

/-- Counterexample to C8: the `server.js` export of a non-empty store
starts with the header (`I` of `ID`), not with a UTF-8 byte-order
marker. -/
theorem export_no_bom_counterexample :
    stExportOne.books.length = 1 ∧
    (exportCsv stExportOne).data.head? = some 'I' ∧
    jsStartsWith (exportCsv stExportOne) "\uFEFF" = false := by
  refine ⟨by decide, by decide, by decide⟩

/-- C8 (amended).  The second server variant's export starts with the
UTF-8 byte-order marker, followed by one header row naming every column
(`ID` plus the whole table column set) and one delimited row per stored
record, in id order; the `server.js` variant produces the identical
delimited table but without the byte-order marker. -/
theorem export_bom_variant_structure (st : Store) (hne : st.books ≠ []) :
    exportCsvBom st = "\uFEFF" ++ exportCsv st ∧
    (exportCsvBom st).data.head? = some '\uFEFF' ∧
    exportCsv st =
      String.intercalate "\n" (headerLine :: (sortById st.books).map bookLine) ∧
    headerLine = String.intercalate "," (("ID" :: tableColumns).map csvQuote) ∧
    ((sortById st.books).map bookLine).length = st.books.length := by
  have hsne : sortById st.books ≠ [] := by
    intro h
    have := length_sortById st.books
    rw [h] at this
    exact hne (List.eq_nil_of_length_eq_zero this.symm)
  have hexp : exportCsv st =
      String.intercalate "\n" (headerLine :: (sortById st.books).map bookLine) := by
    unfold exportCsv
    cases h : sortById st.books with
    | nil => exact absurd h hsne
    | cons x xs => rfl
  refine ⟨rfl, ?_, hexp, rfl, by rw [List.length_map, length_sortById]⟩
  show (("\uFEFF" ++ exportCsv st).data).head? = some '\uFEFF'
  rw [String.data_append]
  rfl

/-- Witness for the amended C8 on the one-record store. -/
theorem export_bom_variant_structure_witness :
    stExportOne.books ≠ [] ∧
    (exportCsvBom stExportOne).data.head? = some '\uFEFF' ∧
    ((sortById stExportOne.books).map bookLine).length = stExportOne.books.length :=
  ⟨by decide,
   (export_bom_variant_structure stExportOne (by decide)).2.1,
   (export_bom_variant_structure stExportOne (by decide)).2.2.2.2⟩

/-! ## C7: full backup and restore

The backup encodes cover bytes with `Buffer.toString('base64')` inside a
data URL; the restore splits the data URL at its comma and decodes with
`Buffer.from(..., 'base64')`.  Standard base64 with padding is embedded
below. -/

/-- The base64 alphabet. -/
def b64Chars : List Char :=
  "ABCDEFGHIJKLMNOPQRSTUVWXYZabcdefghijklmnopqrstuvwxyz0123456789+/".data

/-- Character of a sextet. -/
def b64Char (n : Nat) : Char := b64Chars.getD n '?'

/-- Sextet of a character. -/
def b64Val (c : Char) : Nat := b64Chars.findIdx (fun x => x = c)

/-- Base64 encoding of a byte list, three bytes to four characters, with
`=` padding. -/
def b64EncodeChunks : List Nat → List Char
  | [] => []
  | [b0] => [b64Char (b0 / 4), b64Char (b0 % 4 * 16), '=', '=']
  | [b0, b1] =>
    [b64Char (b0 / 4), b64Char (b0 % 4 * 16 + b1 / 16), b64Char (b1 % 16 * 4), '=']
  | b0 :: b1 :: b2 :: rest =>
    b64Char (b0 / 4) :: b64Char (b0 % 4 * 16 + b1 / 16) ::
    b64Char (b1 % 16 * 4 + b2 / 64) :: b64Char (b2 % 64) :: b64EncodeChunks rest

/-- String form of the encoder (`Buffer.prototype.toString('base64')`). -/
def b64Encode (bytes : List Nat) : String := ⟨b64EncodeChunks bytes⟩

/-- Base64 decoding, dual to the encoder (`Buffer.from(s, 'base64')`). -/
def b64DecodeChunks : List Char → List Nat
  | c0 :: c1 :: c2 :: c3 :: rest =>
    if c2 = '=' then [b64Val c0 * 4 + b64Val c1 / 16]
    else if c3 = '=' then
      [b64Val c0 * 4 + b64Val c1 / 16, b64Val c1 % 16 * 16 + b64Val c2 / 4]
    else
      (b64Val c0 * 4 + b64Val c1 / 16) ::
      (b64Val c1 % 16 * 16 + b64Val c2 / 4) ::
      (b64Val c2 % 4 * 64 + b64Val c3) :: b64DecodeChunks rest
  | _ => []

/-- String form of the decoder. -/
def b64Decode (s : String) : List Nat := b64DecodeChunks s.data

theorem b64Val_b64Char : ∀ n : Nat, n < 64 → b64Val (b64Char n) = n := by decide

theorem b64Char_ne_pad : ∀ n : Nat, n < 64 → b64Char n ≠ '=' := by decide

theorem b64Char_ne_comma : ∀ n : Nat, n < 64 → b64Char n ≠ ',' := by decide

/-- Base64 round-trip on byte lists. -/
theorem b64_roundtrip : ∀ bytes : List Nat, (∀ x ∈ bytes, x < 256) →
    b64DecodeChunks (b64EncodeChunks bytes) = bytes
  | [] => fun _ => rfl
  | [b0] => fun h => by
    have h0 : b0 < 256 := h b0 (by simp)
    unfold b64EncodeChunks b64DecodeChunks
    rw [if_pos rfl]
    rw [b64Val_b64Char _ (by omega), b64Val_b64Char _ (by omega)]
    congr 1
    omega
  | [b0, b1] => fun h => by
    have h0 : b0 < 256 := h b0 (by simp)
    have h1 : b1 < 256 := h b1 (by simp)
    unfold b64EncodeChunks b64DecodeChunks
    rw [if_neg (b64Char_ne_pad _ (by omega)), if_pos rfl]
    rw [b64Val_b64Char _ (by omega), b64Val_b64Char _ (by omega),
        b64Val_b64Char _ (by omega)]
    congr 1
    · omega
    · congr 1
      omega
  | b0 :: b1 :: b2 :: rest => fun h => by
    have h0 : b0 < 256 := h b0 (by simp)
    have h1 : b1 < 256 := h b1 (by simp)
    have h2 : b2 < 256 := h b2 (by simp)
    have hrest : ∀ x ∈ rest, x < 256 := fun x hx => h x (by simp [hx])
    show b64DecodeChunks (b64Char (b0 / 4) :: b64Char (b0 % 4 * 16 + b1 / 16) ::
        b64Char (b1 % 16 * 4 + b2 / 64) :: b64Char (b2 % 64) :: b64EncodeChunks rest) =
      b0 :: b1 :: b2 :: rest
    unfold b64DecodeChunks
    rw [if_neg (b64Char_ne_pad _ (by omega)), if_neg (b64Char_ne_pad _ (by omega))]
    rw [b64Val_b64Char _ (by omega), b64Val_b64Char _ (by omega),
        b64Val_b64Char _ (by omega), b64Val_b64Char _ (by omega)]
    rw [b64_roundtrip rest hrest]
    congr 1
    · omega
    · congr 1
      · omega
      · congr 1
        omega

/-- No comma appears in an encoding. -/
theorem b64EncodeChunks_no_comma : ∀ bytes : List Nat, (∀ x ∈ bytes, x < 256) →
    ',' ∉ b64EncodeChunks bytes
  | [] => fun _ h => by cases h
  | [b0] => fun hb h => by
    have h0 : b0 < 256 := hb b0 (by simp)
    simp only [b64EncodeChunks, List.mem_cons, List.not_mem_nil, or_false] at h
    rcases h with h | h | h | h
    · exact b64Char_ne_comma _ (by omega) h.symm
    · exact b64Char_ne_comma _ (by omega) h.symm
    · exact absurd h (by decide)
    · exact absurd h (by decide)
  | [b0, b1] => fun hb h => by
    have h0 : b0 < 256 := hb b0 (by simp)
    have h1 : b1 < 256 := hb b1 (by simp)
    simp only [b64EncodeChunks, List.mem_cons, List.not_mem_nil, or_false] at h
    rcases h with h | h | h | h
    · exact b64Char_ne_comma _ (by omega) h.symm
    · exact b64Char_ne_comma _ (by omega) h.symm
    · exact b64Char_ne_comma _ (by omega) h.symm
    · exact absurd h (by decide)
  | b0 :: b1 :: b2 :: rest => fun hb h => by
    have h0 : b0 < 256 := hb b0 (by simp)
    have h1 : b1 < 256 := hb b1 (by simp)
    have h2 : b2 < 256 := hb b2 (by simp)
    have hrest : ∀ x ∈ rest, x < 256 := fun x hx => hb x (by simp [hx])
    have hshape : b64EncodeChunks (b0 :: b1 :: b2 :: rest) =
        b64Char (b0 / 4) :: b64Char (b0 % 4 * 16 + b1 / 16) ::
        b64Char (b1 % 16 * 4 + b2 / 64) :: b64Char (b2 % 64) ::
        b64EncodeChunks rest := rfl
    rw [hshape] at h
    simp only [List.mem_cons] at h
    rcases h with h | h | h | h | h
    · exact b64Char_ne_comma _ (by omega) h.symm
    · exact b64Char_ne_comma _ (by omega) h.symm
    · exact b64Char_ne_comma _ (by omega) h.symm
    · exact b64Char_ne_comma _ (by omega) h.symm
    · exact b64EncodeChunks_no_comma rest hrest h

/-- Split of a list around its first separator. -/
theorem splitOnChar_no_sep (c : Char) (l : List Char) (h : c ∉ l) :
    splitOnChar c l = [l] := by
  induction l with
  | nil => rfl
  | cons x r ih =>
    have hx : ¬(x = c) := fun he => h (he ▸ List.mem_cons_self x r)
    unfold splitOnChar
    rw [ih (fun hm => h (List.mem_cons_of_mem x hm))]
    simp [hx]

theorem splitOnChar_ne_nil (c : Char) (l : List Char) : splitOnChar c l ≠ [] := by
  cases l with
  | nil => simp [splitOnChar]
  | cons x r =>
    unfold splitOnChar
    split
    · simp
    · split <;> simp

theorem splitOnChar_first (c : Char) (l1 l2 : List Char) (h : c ∉ l1) :
    splitOnChar c (l1 ++ c :: l2) = l1 :: splitOnChar c l2 := by
  induction l1 with
  | nil =>
    have hstep : splitOnChar c (c :: l2) =
        match splitOnChar c l2 with
        | [] => [[]]
        | g :: gs => if c = c then [] :: g :: gs else (c :: g) :: gs := rfl
    show splitOnChar c (c :: l2) = [] :: splitOnChar c l2
    rw [hstep]
    cases hs : splitOnChar c l2 with
    | nil => exact absurd hs (splitOnChar_ne_nil c l2)
    | cons g gs => simp
  | cons x r ih =>
    have hx : ¬(x = c) := fun he => h (he ▸ List.mem_cons_self x r)
    have ih2 := ih (fun hm => h (List.mem_cons_of_mem x hm))
    have hstep : splitOnChar c (x :: (r ++ c :: l2)) =
        match splitOnChar c (r ++ c :: l2) with
        | [] => [[]]
        | g :: gs => if x = c then [] :: g :: gs else (x :: g) :: gs := rfl
    show splitOnChar c (x :: (r ++ c :: l2)) = (x :: r) :: splitOnChar c l2
    rw [hstep, ih2]
    simp [hx]

/-- The data URL the backup stores for one cover. -/
def mkDataUrl (bytes : List Nat) : String :=
  "data:image/jpeg;base64," ++ b64Encode bytes

/-- The restore's decoding: split at the comma, decode the second part. -/
def dataUrlDecode (s : String) : List Nat :=
  b64Decode ((jsSplit ',' s).getD 1 "")

/-- Data URL round-trip. -/
theorem dataUrl_roundtrip (bytes : List Nat) (h : ∀ x ∈ bytes, x < 256) :
    dataUrlDecode (mkDataUrl bytes) = bytes := by
  have hpre : mkDataUrl bytes =
      ⟨"data:image/jpeg;base64".data ++ ',' :: b64EncodeChunks bytes⟩ := rfl
  have hsplit : splitOnChar ',' ("data:image/jpeg;base64".data ++
      ',' :: b64EncodeChunks bytes) =
      "data:image/jpeg;base64".data :: splitOnChar ',' (b64EncodeChunks bytes) := by
    refine splitOnChar_first ',' _ _ ?_
    decide
  unfold dataUrlDecode jsSplit
  rw [hpre]
  show b64Decode (((splitOnChar ','
    ("data:image/jpeg;base64".data ++ ',' :: b64EncodeChunks bytes)).map
      (fun l => (⟨l⟩ : String))).getD 1 "") = bytes
  rw [hsplit, splitOnChar_no_sep ',' _ (b64EncodeChunks_no_comma bytes h)]
  show b64Decode ⟨b64EncodeChunks bytes⟩ = bytes
  unfold b64Decode
  exact b64_roundtrip bytes h

/-! ### Path lemmas -/

theorem basename_covers (f : String) (hf : '/' ∉ f.data) :
    basename ("/storage/covers/" ++ f) = f := by
  have hdata : ("/storage/covers/" ++ f).data = "/storage/covers/".data ++ f.data :=
    String.data_append _ _
  have hrev : "/storage/covers/".data.reverse = '/' :: "srevoc/egarots/".data := by decide
  have htake : (("/storage/covers/".data ++ f.data).reverse).takeWhile
      (fun c => c ≠ '/') = f.data.reverse := by
    rw [List.reverse_append, hrev]
    refine takeWhile_append_cons _ _ _ _ ?_ (by decide)
    intro x hx
    have : x ∈ f.data := List.mem_reverse.mp hx
    simp only [ne_eq, decide_eq_true_eq]
    intro he
    exact hf (he ▸ this)
  unfold basename
  rw [hdata, htake, List.reverse_reverse]

theorem jsStartsWith_slash_false (f : String) (hne : f ≠ "") (hf : '/' ∉ f.data) :
    jsStartsWith f "/" = false := by
  cases hd : f.data with
  | nil =>
    exfalso
    apply hne
    cases f with
    | mk l => cases hd; rfl
  | cons c rest =>
    have hc : c ∈ f.data := hd ▸ List.mem_cons_self c rest
    have hcne : ¬(c = '/') := fun he => hf (he ▸ hc)
    unfold jsStartsWith
    rw [hd]
    show (c = '/' && listStartsWith rest []) = false
    simp [hcne]

/-! ### Generic association-list lemmas for `aput`/`alookup` -/

theorem alookup_aput_self {α : Type} (l : List (String × α)) (k : String) (v : α) :
    alookup (aput l k v) k = some v := by
  unfold aput
  split
  · rename_i h
    induction l with
    | nil => simp at h
    | cons p r ih =>
      by_cases hp : p.1 = k
      · simp [alookup, List.find?, hp]
      · simp only [List.any_cons, Bool.or_eq_true, decide_eq_true_eq] at h
        rcases h with h | h
        · exact absurd h hp
        · simpa [alookup, List.find?, hp, decide_eq_false hp] using ih h
  · rename_i h
    induction l with
    | nil => simp [alookup, List.find?]
    | cons p r ih =>
      simp only [List.any_cons, Bool.or_eq_true, decide_eq_true_eq, not_or] at h
      simpa [alookup, List.find?, decide_eq_false h.1] using ih (by simpa using h.2)

theorem alookup_aput_ne {α : Type} (l : List (String × α)) (k k' : String) (v : α)
    (h : k' ≠ k) : alookup (aput l k v) k' = alookup l k' := by
  have hkk : ¬(k = k') := fun hk => h (Eq.symm hk)
  unfold aput
  split
  · rename_i hany
    clear hany
    induction l with
    | nil => simp
    | cons p r ih =>
      by_cases hp : p.1 = k
      · have hpk : ¬(p.1 = k') := fun hk => h (Eq.symm (hp ▸ hk))
        simpa [alookup, List.find?, hp, decide_eq_false hkk, decide_eq_false hpk] using ih
      · by_cases hq : p.1 = k'
        · simp [alookup, List.find?, hp, hq, h, hkk]
        · simpa [alookup, List.find?, hp, decide_eq_false hq] using ih
  · rename_i hany
    clear hany
    induction l with
    | nil => simp [alookup, List.find?, decide_eq_false hkk]
    | cons p r ih =>
      by_cases hq : p.1 = k'
      · simp [alookup, List.find?, hq]
      · simpa [alookup, List.find?, decide_eq_false hq] using ih

theorem aput_keys_nodup {α : Type} (l : List (String × α)) (k : String) (v : α)
    (h : (l.map Prod.fst).Nodup) : ((aput l k v).map Prod.fst).Nodup := by
  unfold aput
  split
  · have : (l.map (fun p => if p.1 = k then (k, v) else p)).map Prod.fst =
        l.map Prod.fst := by
      rw [List.map_map]
      refine List.map_congr_left ?_
      intro p _
      by_cases hp : p.1 = k
      · simp [hp]
      · simp [hp]
    rw [this]
    exact h
  · rename_i hany
    have hk : k ∉ l.map Prod.fst := by
      intro hmem
      obtain ⟨p, hp, hpk⟩ := List.mem_map.mp hmem
      exact hany (List.any_eq_true.mpr ⟨p, hp, by simpa using hpk⟩)
    rw [List.map_append]
    simp only [List.map_cons, List.map_nil]
    refine List.Nodup.append h (List.nodup_singleton k) ?_
    intro a ha hb
    rw [List.mem_singleton] at hb
    subst hb
    exact hk ha

theorem alookup_mem {α : Type} (l : List (String × α)) (k : String) (v : α)
    (h : alookup l k = some v) : (k, v) ∈ l := by
  induction l with
  | nil => cases h
  | cons p r ih =>
    by_cases hp : p.1 = k
    · simp only [alookup, List.find?, decide_eq_true hp, Option.map_some',
        Option.some.injEq] at h
      have hpe : p = (k, v) := by
        obtain ⟨p1, p2⟩ := p
        cases hp
        cases h
        rfl
      rw [← hpe]
      exact List.mem_cons_self p r
    · simp only [alookup, List.find?, decide_eq_false hp] at h
      exact List.mem_cons_of_mem p (ih h)

theorem alookup_eq_undef_of_not_mem_keys {α : Type} (l : List (String × α))
    (k : String) (h : k ∉ l.map Prod.fst) : alookup l k = none := by
  induction l with
  | nil => rfl
  | cons p r ih =>
    simp only [List.map_cons, List.mem_cons, not_or] at h
    have hp : ¬(p.1 = k) := fun he => h.1 he.symm
    simpa [alookup, List.find?, decide_eq_false hp] using ih h.2

/-! ### The full backup and restore endpoints -/

/-- Backup of one record (one iteration of the loop of
`app.get('/api/books/backup/full')`): the record is rendered as an object
with its `ID`; an internal cover whose file is readable is inlined as a
data URL keyed by its filename and the record's `Icon Path` rewritten to
the bare filename. -/
def backupBook (a : AssetStore) (b : Book) : Row × Option (String × String) :=
  match b.cells.get "Icon Path" with
  | .str p =>
    if p ≠ "" && jsStartsWith p "/storage/covers/" then
      match a.lookup (basename p) with
      | some bytes =>
        (Row.set (("ID", JsVal.num b.id) :: b.cells) "Icon Path" (.str (basename p)),
         some (basename p, mkDataUrl bytes))
      | none => (("ID", JsVal.num b.id) :: b.cells, none)
    else (("ID", JsVal.num b.id) :: b.cells, none)
  | _ => (("ID", JsVal.num b.id) :: b.cells, none)

/-- One iteration of the backup loop over the accumulated
`{ books, images }` payload. -/
def backupStep (a : AssetStore) (acc : List Row × List (String × String))
    (b : Book) : List Row × List (String × String) :=
  match backupBook a b with
  | (row, some (nm, dat)) => (acc.1 ++ [row], aput acc.2 nm dat)
  | (row, none) => (acc.1 ++ [row], acc.2)

/-- The full-backup endpoint: all records in id order, plus the
filename-to-data-URL object of their internal covers. -/
def backupFull (st : Store) (a : AssetStore) : List Row × List (String × String) :=
  (sortById st.books).foldl (backupStep a) ([], [])

/-- Restore of one backup record: a truthy `Icon Path` that does not start
with a slash is re-anchored under `/storage/covers/`, the identity is
stripped, and null fields are excluded from the insert. -/
def restoreBookRow (bk : Row) : Row :=
  let bk1 :=
    match bk.get "Icon Path" with
    | .str p =>
      if p ≠ "" && !(jsStartsWith p "/") then
        bk.set "Icon Path" (.str ("/storage/covers/" ++ p))
      else bk
    | _ => bk
  (bk1.del "ID").filter (fun pr => pr.2 ≠ .null)

/-- One image write of the restore loop: the data URL is split at its
comma and the base64 payload decoded to the cover file's bytes. -/
def putImage (acc : AssetStore) (pr : String × String) : AssetStore :=
  AssetStore.put acc pr.1 (dataUrlDecode pr.2)

/-- One book insert of the restore loop. -/
def restoreStep (acc : Store) (bk : Row) : Store :=
  insertRecord acc (restoreBookRow bk)

/-- The full-restore endpoint: every image of the payload is written to
the cover store (decoding its data URL), then every book entry is
inserted with a fresh store-assigned identity. -/
def restoreFull (books : List Row) (images : List (String × String))
    (st : Store) (a : AssetStore) : Store × AssetStore :=
  let a1 := images.foldl putImage a
  let st1 := books.foldl restoreStep st
  (st1, a1)

/-! ### Backup-fold lemmas -/

theorem listStartsWith_append (l m : List Char) : listStartsWith (l ++ m) l = true := by
  induction l with
  | nil =>
    rw [List.nil_append]
    cases m with
    | nil => rfl
    | cons c cs => rfl
  | cons c cs ih => simp [listStartsWith, ih]

theorem jsStartsWith_append (s t : String) : jsStartsWith (s ++ t) s = true := by
  unfold jsStartsWith
  rw [String.data_append]
  exact listStartsWith_append s.data t.data

theorem covers_append_ne (f : String) : ("/storage/covers/" ++ f : String) ≠ "" := by
  intro h
  have hd := congrArg String.data h
  rw [String.data_append] at hd
  rcases List.append_eq_nil.mp hd with ⟨h1, _⟩
  exact absurd h1 (by decide)

theorem backupStep_fst (a : AssetStore) (acc : List Row × List (String × String))
    (b : Book) : (backupStep a acc b).1 = acc.1 ++ [(backupBook a b).1] := by
  unfold backupStep
  rcases h : backupBook a b with ⟨row, img⟩
  cases img with
  | none => simp [h]
  | some pr =>
    obtain ⟨nm, dat⟩ := pr
    simp [h]

theorem backupStep_snd (a : AssetStore) (acc : List Row × List (String × String))
    (b : Book) :
    (backupStep a acc b).2 = acc.2 ∨
      ∃ nm bts, AssetStore.lookup a nm = some bts ∧
        (backupStep a acc b).2 = aput acc.2 nm (mkDataUrl bts) := by
  unfold backupStep backupBook
  cases hicon : b.cells.get "Icon Path" with
  | str p =>
    by_cases h1 : p = ""
    · left; simp [h1]
    · by_cases h2 : jsStartsWith p "/storage/covers/" = true
      · cases hl : AssetStore.lookup a (basename p) with
        | none => left; simp [h1, h2, hl]
        | some bts =>
          right
          refine ⟨basename p, bts, hl, ?_⟩
          simp [h1, h2, hl]
      · left; simp [h1, h2]
  | undef => left; rfl
  | null => left; rfl
  | num q => left; rfl
  | bool t => left; rfl

theorem backup_fold_fst (a : AssetStore) :
    ∀ (l : List Book) (acc : List Row × List (String × String)),
      (l.foldl (backupStep a) acc).1 =
        acc.1 ++ l.map (fun b => (backupBook a b).1) := by
  intro l
  induction l with
  | nil => intro acc; simp
  | cons x xs ih =>
    intro acc
    rw [List.foldl_cons, ih, backupStep_fst]
    simp

theorem backup_fold_imgs_persist (a : AssetStore) :
    ∀ (l : List Book) (acc : List Row × List (String × String)) (f : String)
      (bytes : List Nat),
      AssetStore.lookup a f = some bytes →
      alookup acc.2 f = some (mkDataUrl bytes) →
      alookup ((l.foldl (backupStep a) acc).2) f = some (mkDataUrl bytes) := by
  intro l
  induction l with
  | nil => intro acc f bytes _ hacc; exact hacc
  | cons x xs ih =>
    intro acc f bytes hf hacc
    rw [List.foldl_cons]
    refine ih _ f bytes hf ?_
    rcases backupStep_snd a acc x with h | ⟨nm, bts, hl, heq⟩
    · rw [h]; exact hacc
    · rw [heq]
      by_cases hnm : nm = f
      · subst hnm
        have : bts = bytes := by
          rw [hf] at hl
          exact (Option.some.injEq _ _ ▸ hl).symm
        rw [this]
        exact alookup_aput_self _ _ _
      · rw [alookup_aput_ne _ _ _ _ (fun he => hnm (Eq.symm he))]
        exact hacc

theorem backup_fold_imgs_present (a : AssetStore) :
    ∀ (l : List Book) (acc : List Row × List (String × String)) (b : Book),
      b ∈ l → ∀ (f : String) (bytes : List Nat),
      b.cells.get "Icon Path" = .str ("/storage/covers/" ++ f) →
      f ≠ "" → '/' ∉ f.data →
      AssetStore.lookup a f = some bytes →
      alookup ((l.foldl (backupStep a) acc).2) f = some (mkDataUrl bytes) := by
  intro l
  induction l with
  | nil => intro acc b hb; cases hb
  | cons x xs ih =>
    intro acc b hb f bytes hicon hfne hfs hlook
    rw [List.foldl_cons]
    rcases List.mem_cons.mp hb with hbx | hbm
    · subst hbx
      refine backup_fold_imgs_persist a xs _ f bytes hlook ?_
      have hstep : (backupStep a acc b).2 = aput acc.2 f (mkDataUrl bytes) := by
        unfold backupStep backupBook
        rw [hicon]
        have hb1 : ("/storage/covers/" ++ f : String) ≠ "" := covers_append_ne f
        have hb2 : jsStartsWith ("/storage/covers/" ++ f) "/storage/covers/" = true :=
          jsStartsWith_append _ _
        have hb3 : AssetStore.lookup a (basename ("/storage/covers/" ++ f)) =
            some bytes := by rw [basename_covers f hfs]; exact hlook
        simp [hb1, hb2, hb3]
        rw [basename_covers f hfs]
      rw [hstep]
      exact alookup_aput_self _ _ _
    · exact ih _ b hbm f bytes hicon hfne hfs hlook

theorem backup_fold_imgs_nodup (a : AssetStore) :
    ∀ (l : List Book) (acc : List Row × List (String × String)),
      (acc.2.map Prod.fst).Nodup →
      (((l.foldl (backupStep a) acc).2).map Prod.fst).Nodup := by
  intro l
  induction l with
  | nil => intro acc h; exact h
  | cons x xs ih =>
    intro acc h
    rw [List.foldl_cons]
    refine ih _ ?_
    rcases backupStep_snd a acc x with heq | ⟨nm, bts, _, heq⟩
    · rw [heq]; exact h
    · rw [heq]; exact aput_keys_nodup _ _ _ h

/-! ### Restore-fold lemmas -/

theorem restore_fold_books :
    ∀ (rows : List Row) (acc : Store),
      ((rows.foldl restoreStep acc).books.length = acc.books.length + rows.length) ∧
      ((rows.foldl restoreStep acc).books.map (fun b => b.id) =
        acc.books.map (fun b => b.id) ++ List.range' acc.nextId rows.length) := by
  intro rows
  induction rows with
  | nil => intro acc; simp
  | cons r rest ih =>
    intro acc
    rw [List.foldl_cons]
    obtain ⟨ihl, ihi⟩ := ih (restoreStep acc r)
    constructor
    · rw [ihl]
      unfold restoreStep insertRecord
      simp only [List.length_append, List.length_cons, List.length_nil]
      omega
    · rw [ihi]
      unfold restoreStep insertRecord
      simp only [List.map_append, List.map_cons, List.map_nil, List.length_cons]
      have hr : List.range' acc.nextId (rest.length + 1) =
          acc.nextId :: List.range' (acc.nextId + 1) rest.length := rfl
      rw [hr]
      simp [List.append_assoc]

theorem restore_fold_mem :
    ∀ (rows : List Row) (acc : Store) (b' : Book),
      b' ∈ (rows.foldl restoreStep acc).books →
      b' ∈ acc.books ∨ ∃ bk ∈ rows, ∃ stm : Store,
        b'.cells = tableColumns.map (fun c => (c, insVal stm (restoreBookRow bk) c)) := by
  intro rows
  induction rows with
  | nil => intro acc b' h; left; exact h
  | cons r rest ih =>
    intro acc b' h
    rw [List.foldl_cons] at h
    rcases ih _ _ h with hmem | ⟨bk, hbk, stm, hc⟩
    · unfold restoreStep insertRecord at hmem
      simp only [List.mem_append, List.mem_singleton] at hmem
      rcases hmem with h1 | h1
      · left; exact h1
      · right
        refine ⟨r, List.mem_cons_self r rest, acc, ?_⟩
        rw [h1]
    · right
      exact ⟨bk, List.mem_cons_of_mem r hbk, stm, hc⟩

theorem restore_assets_preserve :
    ∀ (imgs : List (String × String)) (acc : AssetStore) (f : String),
      f ∉ imgs.map Prod.fst →
      AssetStore.lookup (imgs.foldl putImage acc) f = AssetStore.lookup acc f := by
  intro imgs
  induction imgs with
  | nil => intro acc f _; rfl
  | cons pr rest ih =>
    intro acc f hf
    simp only [List.map_cons, List.mem_cons, not_or] at hf
    rw [List.foldl_cons, ih _ _ hf.2]
    unfold putImage AssetStore.put AssetStore.lookup
    exact alookup_aput_ne _ _ _ _ hf.1

theorem restore_assets_lookup :
    ∀ (imgs : List (String × String)) (a0 : AssetStore) (f : String) (dat : String),
      (imgs.map Prod.fst).Nodup → alookup imgs f = some dat →
      AssetStore.lookup (imgs.foldl putImage a0) f = some (dataUrlDecode dat) := by
  intro imgs
  induction imgs with
  | nil => intro a0 f dat _ h; cases h
  | cons pr rest ih =>
    intro a0 f dat hnd hl
    simp only [List.map_cons, List.nodup_cons] at hnd
    rw [List.foldl_cons]
    by_cases hp : pr.1 = f
    · have hd : pr.2 = dat := by
        simp only [alookup, List.find?, decide_eq_true hp, Option.map_some',
          Option.some.injEq] at hl
        exact hl
      have hrest : f ∉ rest.map Prod.fst := hp ▸ hnd.1
      rw [restore_assets_preserve rest _ f hrest]
      show alookup (aput a0 pr.1 (dataUrlDecode pr.2)) f = some (dataUrlDecode dat)
      rw [← hp, alookup_aput_self, hd]
    · have hl' : alookup rest f = some dat := by
        simp only [alookup, List.find?, decide_eq_false hp] at hl
        exact hl
      exact ih _ f dat hnd.2 hl'

/-! ### The icon path of a restored backup row -/

theorem backupBook_covers_row (a : AssetStore) (b : Book) (f : String)
    (bytes : List Nat)
    (hicon : b.cells.get "Icon Path" = .str ("/storage/covers/" ++ f))
    (hfs : '/' ∉ f.data)
    (hlook : AssetStore.lookup a f = some bytes) :
    (backupBook a b).1 =
      Row.set (("ID", JsVal.num b.id) :: b.cells) "Icon Path" (JsVal.str f) := by
  unfold backupBook
  rw [hicon]
  have hb1 : ("/storage/covers/" ++ f : String) ≠ "" := covers_append_ne f
  have hb2 : jsStartsWith ("/storage/covers/" ++ f) "/storage/covers/" = true :=
    jsStartsWith_append _ _
  have hb3 : AssetStore.lookup a (basename ("/storage/covers/" ++ f)) =
      some bytes := by rw [basename_covers f hfs]; exact hlook
  simp [hb1, hb2, hb3]
  rw [basename_covers f hfs]

theorem restoreBookRow_covers_icon (a : AssetStore) (b : Book) (f : String)
    (bytes : List Nat)
    (hnd : (rowKeys b.cells).Nodup) (hid : "ID" ∉ rowKeys b.cells)
    (hicon : b.cells.get "Icon Path" = .str ("/storage/covers/" ++ f))
    (hfne : f ≠ "") (hfs : '/' ∉ f.data)
    (hlook : AssetStore.lookup a f = some bytes) :
    Row.get (restoreBookRow ((backupBook a b).1)) "Icon Path" =
      .str ("/storage/covers/" ++ f) := by
  rw [backupBook_covers_row a b f bytes hicon hfs hlook]
  have hnd0 : (rowKeys (("ID", JsVal.num (b.id : ℚ)) :: b.cells)).Nodup := by
    simp only [rowKeys, List.map_cons, List.nodup_cons]
    exact ⟨hid, hnd⟩
  have hnd1 : (rowKeys (Row.set (("ID", JsVal.num (b.id : ℚ)) :: b.cells)
      "Icon Path" (JsVal.str f))).Nodup := rowKeys_set_nodup _ _ _ hnd0
  have hgr : Row.get (Row.set (("ID", JsVal.num (b.id : ℚ)) :: b.cells)
      "Icon Path" (JsVal.str f)) "Icon Path" = JsVal.str f :=
    Row.get_set_self _ _ _
  unfold restoreBookRow
  simp only [hgr]
  have hss : jsStartsWith f "/" = false := jsStartsWith_slash_false f hfne hfs
  rw [if_pos (by simp [hfne, hss])]
  have hnd2 : (rowKeys (Row.del (Row.set (Row.set
      (("ID", JsVal.num (b.id : ℚ)) :: b.cells) "Icon Path" (JsVal.str f))
      "Icon Path" (JsVal.str ("/storage/covers/" ++ f))) "ID")).Nodup :=
    rowKeys_del_nodup _ _ (rowKeys_set_nodup _ _ _ hnd1)
  rw [get_filter_of_nodup _ _ _ hnd2]
  rw [Row.get_del_ne _ _ _ (by decide), Row.get_set_self]
  simp

theorem restoreBookRow_null_icon (a : AssetStore) (b : Book)
    (hnd : (rowKeys b.cells).Nodup) (hid : "ID" ∉ rowKeys b.cells)
    (hicon : b.cells.get "Icon Path" = .null) :
    Row.get (restoreBookRow ((backupBook a b).1)) "Icon Path" = .undef := by
  have hbb : (backupBook a b).1 = ("ID", JsVal.num b.id) :: b.cells := by
    unfold backupBook
    rw [hicon]
  rw [hbb]
  have hgr : Row.get (("ID", JsVal.num (b.id : ℚ)) :: b.cells) "Icon Path" =
      JsVal.null := by
    have hstep : Row.get (("ID", JsVal.num (b.id : ℚ)) :: b.cells) "Icon Path" =
        Row.get b.cells "Icon Path" := by
      simp [Row.get, List.find?]
    rw [hstep, hicon]
  unfold restoreBookRow
  simp only [hgr]
  have hnd0 : (rowKeys (("ID", JsVal.num (b.id : ℚ)) :: b.cells)).Nodup := by
    simp only [rowKeys, List.map_cons, List.nodup_cons]
    exact ⟨hid, hnd⟩
  have hnd2 : (rowKeys (Row.del (("ID", JsVal.num (b.id : ℚ)) :: b.cells)
      "ID")).Nodup := rowKeys_del_nodup _ _ hnd0
  rw [get_filter_of_nodup _ _ _ hnd2]
  rw [Row.get_del_ne _ _ _ (by decide), hgr]
  simp

/-- C7.  Full backup followed by full restore into an empty store is a
round trip: for a store whose records have well-formed rows (unique cell
keys, no stray `ID` cell) and whose icon paths are either null or
internal cover paths resolving to byte lists in the cover store, the
restore yields the same number of records, assigns each restored record
a fresh store-generated `ID` (consecutive from the target store's
counter), and every restored record's icon path points back under
`/storage/covers/` to a file whose restored bytes are identical to the
original cover's bytes. -/
theorem backup_restore_roundtrip (st : Store) (a : AssetStore)
    (st0 : Store) (a0 : AssetStore)
    (hempty : st0.books = [])
    (hwf : ∀ b ∈ st.books, (rowKeys b.cells).Nodup ∧ "ID" ∉ rowKeys b.cells ∧
      (b.cells.get "Icon Path" = .null ∨
       ∃ f bytes, b.cells.get "Icon Path" = .str ("/storage/covers/" ++ f) ∧
         f ≠ "" ∧ '/' ∉ f.data ∧ AssetStore.lookup a f = some bytes ∧
         ∀ x ∈ bytes, x < 256)) :
    (restoreFull (backupFull st a).1 (backupFull st a).2 st0 a0).1.books.length =
        st.books.length ∧
    (restoreFull (backupFull st a).1 (backupFull st a).2 st0 a0).1.books.map
        (fun b => b.id) = List.range' st0.nextId st.books.length ∧
    (∀ b' ∈ (restoreFull (backupFull st a).1 (backupFull st a).2 st0 a0).1.books,
      ∀ p, b'.cells.get "Icon Path" = .str p →
        ∃ f bytes, p = "/storage/covers/" ++ f ∧
          AssetStore.lookup a f = some bytes ∧
          AssetStore.lookup
            ((restoreFull (backupFull st a).1 (backupFull st a).2 st0 a0).2) f =
            some bytes) := by
  have hbf : backupFull st a = (sortById st.books).foldl (backupStep a) ([], []) := rfl
  have hre1 : (restoreFull (backupFull st a).1 (backupFull st a).2 st0 a0).1 =
      (backupFull st a).1.foldl restoreStep st0 := rfl
  have hre2 : (restoreFull (backupFull st a).1 (backupFull st a).2 st0 a0).2 =
      (backupFull st a).2.foldl putImage a0 := rfl
  have hrows : (backupFull st a).1 =
      (sortById st.books).map (fun b => (backupBook a b).1) := by
    rw [hbf, backup_fold_fst]
    simp
  have hrowslen : (backupFull st a).1.length = st.books.length := by
    rw [hrows, List.length_map, length_sortById]
  obtain ⟨hlen, hids⟩ := restore_fold_books (backupFull st a).1 st0
  refine ⟨?_, ?_, ?_⟩
  · rw [hre1, hlen, hrowslen, hempty]
    simp
  · rw [hre1, hids, hrowslen, hempty]
    simp
  · intro b' hb' p hp
    rw [hre1] at hb'
    rcases restore_fold_mem _ _ _ hb' with hmem | ⟨bk, hbk, stm, hc⟩
    · rw [hempty] at hmem
      cases hmem
    · rw [hrows] at hbk
      obtain ⟨b, hbmem, hbeq⟩ := List.mem_map.mp hbk
      subst hbeq
      have hbmem' : b ∈ st.books := (mem_sortById b st.books).mp hbmem
      obtain ⟨hnd, hid, hiconwf⟩ := hwf b hbmem'
      have hget : b'.cells.get "Icon Path" =
          insVal stm (restoreBookRow ((backupBook a b).1)) "Icon Path" := by
        rw [hc]
        exact get_mapCols _ _ _ (by decide)
      rcases hiconwf with hnull | ⟨f, bytes, hicon, hfne, hfs, hlook, hbytes⟩
      · have hri : Row.get (restoreBookRow ((backupBook a b).1)) "Icon Path" =
            .undef := restoreBookRow_null_icon a b hnd hid hnull
        have hfin : b'.cells.get "Icon Path" = JsVal.null := by
          rw [hget]
          unfold insVal
          rw [hri]
          rfl
        rw [hfin] at hp
        simp at hp
      · have hri : Row.get (restoreBookRow ((backupBook a b).1)) "Icon Path" =
            .str ("/storage/covers/" ++ f) :=
          restoreBookRow_covers_icon a b f bytes hnd hid hicon hfne hfs hlook
        have hfin : b'.cells.get "Icon Path" =
            JsVal.str ("/storage/covers/" ++ f) := by
          rw [hget]
          unfold insVal
          rw [hri]
        rw [hfin] at hp
        have hpe : p = "/storage/covers/" ++ f := by
          injection hp with h
          exact h.symm
        refine ⟨f, bytes, hpe, hlook, ?_⟩
        rw [hre2, hbf]
        have hpresent :
            alookup (((sortById st.books).foldl (backupStep a) ([], [])).2) f =
              some (mkDataUrl bytes) :=
          backup_fold_imgs_present a (sortById st.books) ([], []) b
            ((mem_sortById b st.books).mpr hbmem') f bytes hicon hfne hfs hlook
        have hnodup :
            ((((sortById st.books).foldl (backupStep a) ([], [])).2).map
              Prod.fst).Nodup :=
          backup_fold_imgs_nodup a (sortById st.books) ([], []) (by simp)
        rw [restore_assets_lookup _ a0 f (mkDataUrl bytes) hnodup hpresent]
        rw [dataUrl_roundtrip bytes hbytes]

/-- Fixture for the C7 witness: one record with an internal cover. -/
def stW7 : Store :=
  ⟨4, "2024-01-01",
    [⟨1, [("Title", JsVal.str "Dune"),
          ("Icon Path", JsVal.str "/storage/covers/a.jpg")]⟩]⟩

/-- Fixture for the C7 witness: the cover directory. -/
def aW7 : AssetStore := [("a.jpg", [7, 200, 13])]

/-- Fixture for the C7 witness: the empty target store. -/
def st0W7 : Store := ⟨10, "2024-02-02", []⟩

/-- Witness for C7: backing up a one-record store with cover `a.jpg` and
restoring into an empty store yields one record carrying the fresh id 10. -/
theorem backup_restore_roundtrip_witness :
    st0W7.books = [] ∧
    (restoreFull (backupFull stW7 aW7).1 (backupFull stW7 aW7).2 st0W7 []).1.books.length
        = stW7.books.length ∧
    (restoreFull (backupFull stW7 aW7).1 (backupFull stW7 aW7).2 st0W7 []).1.books.map
        (fun b => b.id) = List.range' st0W7.nextId stW7.books.length := by
  have hwf : ∀ b ∈ stW7.books, (rowKeys b.cells).Nodup ∧ "ID" ∉ rowKeys b.cells ∧
      (b.cells.get "Icon Path" = .null ∨
       ∃ f bytes, b.cells.get "Icon Path" = .str ("/storage/covers/" ++ f) ∧
         f ≠ "" ∧ '/' ∉ f.data ∧ AssetStore.lookup aW7 f = some bytes ∧
         ∀ x ∈ bytes, x < 256) := by
    intro b hb
    simp only [stW7, List.mem_singleton] at hb
    subst hb
    exact ⟨by decide, by decide,
      Or.inr ⟨"a.jpg", [7, 200, 13], rfl, by decide, by decide, rfl, by decide⟩⟩
  have h := backup_restore_roundtrip stW7 aW7 st0W7 [] rfl hwf
  exact ⟨rfl, h.1, h.2.1⟩

end HomeBook
